import Mathlib

/-!
MPTCP per-namespace sysctl control (net/mptcp/ctrl.c) and TCP state flags
(include/net/tcp_states.h).

A shallow embedding of the two source files.  Pointers are modelled by tagged
addresses, the kernel heap and the sysctl registry by lists of live objects, and
every call that leaves the file (kmemdup, kfree, register_net_sysctl,
unregister_net_sysctl_table) is recorded in a call log so that the order of effects
can be stated.  A run that dereferences a null or dangling pointer, or hands kfree
something that is not a live heap block, ends in a `Fault`.
-/

namespace Mptcp

/-! ## include/net/tcp_states.h -/

-- first enum: explicit start at 1, every later enumerator is its predecessor plus one
def TCP_ESTABLISHED : Nat := 1
def TCP_SYN_SENT : Nat := TCP_ESTABLISHED + 1
def TCP_SYN_RECV : Nat := TCP_SYN_SENT + 1
def TCP_FIN_WAIT1 : Nat := TCP_SYN_RECV + 1
def TCP_FIN_WAIT2 : Nat := TCP_FIN_WAIT1 + 1
def TCP_TIME_WAIT : Nat := TCP_FIN_WAIT2 + 1
def TCP_CLOSE : Nat := TCP_TIME_WAIT + 1
def TCP_CLOSE_WAIT : Nat := TCP_CLOSE + 1
def TCP_LAST_ACK : Nat := TCP_CLOSE_WAIT + 1
def TCP_LISTEN : Nat := TCP_LAST_ACK + 1
def TCP_CLOSING : Nat := TCP_LISTEN + 1
def TCP_NEW_SYN_RECV : Nat := TCP_CLOSING + 1
def TCP_MAX_STATES : Nat := TCP_NEW_SYN_RECV + 1

def TCP_STATE_MASK : Nat := 0xF

def TCP_ACTION_FIN : Nat := 1 <<< TCP_CLOSE

-- second enum: one flag per state (all values are below 2^13, so the C int never overflows)
def TCPF_ESTABLISHED : Nat := 1 <<< TCP_ESTABLISHED
def TCPF_SYN_SENT : Nat := 1 <<< TCP_SYN_SENT
def TCPF_SYN_RECV : Nat := 1 <<< TCP_SYN_RECV
def TCPF_FIN_WAIT1 : Nat := 1 <<< TCP_FIN_WAIT1
def TCPF_FIN_WAIT2 : Nat := 1 <<< TCP_FIN_WAIT2
def TCPF_TIME_WAIT : Nat := 1 <<< TCP_TIME_WAIT
def TCPF_CLOSE : Nat := 1 <<< TCP_CLOSE
def TCPF_CLOSE_WAIT : Nat := 1 <<< TCP_CLOSE_WAIT
def TCPF_LAST_ACK : Nat := 1 <<< TCP_LAST_ACK
def TCPF_LISTEN : Nat := 1 <<< TCP_LISTEN
def TCPF_CLOSING : Nat := 1 <<< TCP_CLOSING
def TCPF_NEW_SYN_RECV : Nat := 1 <<< TCP_NEW_SYN_RECV

/-- The twelve connection states named by the first enum (TCP_MAX_STATES is the
end marker, not a state). -/
inductive tcp_state
  | established | syn_sent | syn_recv | fin_wait1 | fin_wait2 | time_wait
  | close | close_wait | last_ack | listen | closing | new_syn_recv
  deriving DecidableEq, Repr

/-- Integer value of a state: the enumerator of the first enum. -/
def tcp_state.val : tcp_state → Nat
  | .established => TCP_ESTABLISHED
  | .syn_sent => TCP_SYN_SENT
  | .syn_recv => TCP_SYN_RECV
  | .fin_wait1 => TCP_FIN_WAIT1
  | .fin_wait2 => TCP_FIN_WAIT2
  | .time_wait => TCP_TIME_WAIT
  | .close => TCP_CLOSE
  | .close_wait => TCP_CLOSE_WAIT
  | .last_ack => TCP_LAST_ACK
  | .listen => TCP_LISTEN
  | .closing => TCP_CLOSING
  | .new_syn_recv => TCP_NEW_SYN_RECV

/-- Flag of a state: the enumerator of the second enum. -/
def tcp_state.flag : tcp_state → Nat
  | .established => TCPF_ESTABLISHED
  | .syn_sent => TCPF_SYN_SENT
  | .syn_recv => TCPF_SYN_RECV
  | .fin_wait1 => TCPF_FIN_WAIT1
  | .fin_wait2 => TCPF_FIN_WAIT2
  | .time_wait => TCPF_TIME_WAIT
  | .close => TCPF_CLOSE
  | .close_wait => TCPF_CLOSE_WAIT
  | .last_ack => TCPF_LAST_ACK
  | .listen => TCPF_LISTEN
  | .closing => TCPF_CLOSING
  | .new_syn_recv => TCPF_NEW_SYN_RECV

/-- All states, in enumeration order. -/
def tcp_state.all : List tcp_state :=
  [.established, .syn_sent, .syn_recv, .fin_wait1, .fin_wait2, .time_wait,
   .close, .close_wait, .last_ack, .listen, .closing, .new_syn_recv]

/-- Bitwise OR of the flags of the states in `S`, as a caller writes
`TCPF_LISTEN | TCPF_SYN_SENT | ...`. -/
def state_mask (S : List tcp_state) : Nat :=
  S.foldr (fun t m => t.flag ||| m) 0

/-- The membership test `(1 << s) & mask`. -/
def state_in_mask (s : tcp_state) (mask : Nat) : Bool :=
  ((1 <<< s.val) &&& mask) != 0

/-! ## net/mptcp/ctrl.c : data model -/

/-- Identity of a `struct net`.  The code only compares it (`net_eq`) and uses it to
find the per-namespace record. -/
abbrev NetId := Nat

/-- The default namespace `init_net`. -/
def init_net : NetId := 0

def net_eq (a b : NetId) : Bool := a == b

/-- Address of a `struct mptcp_pernet`: the record embedded in the generic storage of
a namespace, named by that namespace. -/
abbrev PernetPtr := NetId

/-- What the `data` slot of a control entry can point at. -/
inductive DataPtr
  | null
  | mptcp_enabled_of (pernet : PernetPtr)
  deriving DecidableEq, Repr

/-- A `struct ctl_table *`: NULL, the static array `mptcp_sysctl_table`, or a heap
block returned by kmemdup. -/
inductive TablePtr
  | null
  | static_template
  | heap (addr : Nat)
  deriving DecidableEq, Repr

inductive Handler
  | none
  | proc_dointvec
  deriving DecidableEq, Repr

/-- The fields of `struct ctl_table` that ctrl.c sets. -/
structure ctl_table where
  procname : Option String
  data : DataPtr
  maxlen : Nat
  mode : Nat
  proc_handler : Handler
  deriving DecidableEq, Repr

/-- The all-zero entry `{}` that ends a table. -/
def ctl_table.sentinel : ctl_table :=
  { procname := Option.none, data := .null, maxlen := 0, mode := 0, proc_handler := .none }

def sizeof_int : Nat := 4

/-- The static initialiser of `mptcp_sysctl_table` (mode 0644 is octal). -/
def mptcp_sysctl_table : List ctl_table :=
  [ { procname := some "enabled", data := .null, maxlen := sizeof_int, mode := 0o644,
      proc_handler := .proc_dointvec },
    ctl_table.sentinel ]

def MPTCP_SYSCTL_PATH : String := "net/mptcp"

def ENOMEM : Int := 12

/-- Modelled from the spec: `struct ctl_table_header` is declared outside the two
source files.  ctrl.c reads only `ctl_table_arg`; the address, the namespace and the
path are what the control surface keys a registered entry by ("a fixed control-surface
path scoped to namespace"). -/
structure ctl_table_header where
  addr : Nat
  net : NetId
  path : String
  ctl_table_arg : TablePtr
  deriving DecidableEq, Repr

/-- The struct of ctrl.c; a NULL `ctl_table_hdr` is `none`. -/
structure mptcp_pernet where
  ctl_table_hdr : Option Nat
  mptcp_enabled : Int
  deriving DecidableEq, Repr

/-- Calls that leave ctrl.c, with their arguments and results, in program order. -/
inductive Op
  | kmemdup (src : TablePtr) (ret : TablePtr)
  | register_net_sysctl (net : NetId) (path : String) (table : TablePtr) (ret : Option Nat)
  | unregister_net_sysctl_table (hdr : Nat)
  | kfree (p : TablePtr)
  deriving DecidableEq, Repr

/-- Ways a run can leave defined behaviour. -/
inductive Fault
  | null_deref
  | dangling_header
  | free_of_static
  | free_of_dead_block
  deriving DecidableEq, Repr

/-- The memory ctrl.c works on. -/
structure State where
  /-- The records `net_generic(net, mptcp_pernet_id)`, one per namespace -/
  pernet : NetId → mptcp_pernet
  /-- Current content of the static array `mptcp_sysctl_table` -/
  static_table : List ctl_table
  /-- Live heap blocks holding tables, by address -/
  heap : List (Nat × List ctl_table)
  /-- Headers currently registered on the control surface -/
  sysctl : List ctl_table_header
  /-- Log of external calls -/
  trace : List Op

/-- Memory at boot: zeroed per-namespace records, the static array as initialised,
nothing allocated, nothing registered. -/
def boot : State :=
  { pernet := fun _ => { ctl_table_hdr := none, mptcp_enabled := 0 },
    static_table := mptcp_sysctl_table,
    heap := [],
    sysctl := [],
    trace := [] }

/-! ## Kernel services used by ctrl.c -/

/-- An address above every address in use (never 0). -/
def fresh (used : List Nat) : Nat := used.foldr max 0 + 1

/-- The table a pointer refers to, if it refers to one. -/
def table_at (s : State) : TablePtr → Option (List ctl_table)
  | .null => none
  | .static_template => some s.static_table
  | .heap a => (s.heap.find? (fun b => b.1 == a)).map Prod.snd

/-- Modelled from the spec: kmemdup is defined outside the two source files.
"allocates a private copy of the control-entry template ... Allocation failure
surfaces as AllocationError": with `ok = false` (resource exhaustion, the
environment's choice) it returns NULL, otherwise a new block holding a copy of the
source. -/
def kmemdup (s : State) (src : TablePtr) (ok : Bool) : TablePtr × State :=
  match ok, table_at s src with
  | true, some t =>
    let a := fresh (s.heap.map Prod.fst)
    (.heap a, { s with heap := (a, t) :: s.heap,
                       trace := s.trace ++ [Op.kmemdup src (.heap a)] })
  | _, _ => (.null, { s with trace := s.trace ++ [Op.kmemdup src .null] })

/-- Modelled from the spec: kfree is defined outside the two source files.  It
releases a live heap block; kfree(NULL) does nothing; anything else is a fault. -/
def kfree (s : State) (p : TablePtr) : Except Fault State :=
  let s1 := { s with trace := s.trace ++ [Op.kfree p] }
  match p with
  | .null => .ok s1
  | .static_template => .error .free_of_static
  | .heap a =>
    if s.heap.any (fun b => b.1 == a) then
      .ok { s1 with heap := s.heap.filter (fun b => b.1 != a) }
    else .error .free_of_dead_block

/-- The entry registered for a namespace at a path, if any. -/
def sysctl_lookup (s : State) (net : NetId) (path : String) : Option ctl_table_header :=
  s.sysctl.find? (fun h => h.net == net && h.path == path)

/-- The registered header at an address, if any. -/
def header_at (s : State) (hdr : Nat) : Option ctl_table_header :=
  s.sysctl.find? (fun h => h.addr == hdr)

/-- Modelled from the spec: register_net_sysctl is defined outside the two source
files.  "Registers the entry against a fixed control-surface path scoped to
namespace.  Registration failure (e.g., surface already occupied, resource
exhaustion)": it returns NULL when the path is already occupied in that namespace or
when `ok = false` (resource exhaustion, the environment's choice), and otherwise a
new header whose `ctl_table_arg` is the table. -/
def register_net_sysctl (s : State) (net : NetId) (path : String) (table : TablePtr)
    (ok : Bool) : Option Nat × State :=
  if ok && (sysctl_lookup s net path).isNone then
    let h := fresh (s.sysctl.map ctl_table_header.addr)
    (some h, { s with sysctl := { addr := h, net := net, path := path,
                                  ctl_table_arg := table } :: s.sysctl,
                      trace := s.trace ++ [Op.register_net_sysctl net path table (some h)] })
  else
    (none, { s with trace := s.trace ++ [Op.register_net_sysctl net path table none] })

/-- Modelled from the spec: unregister_net_sysctl_table is defined outside the two
source files.  "Unregisters the entry from the control surface": the header leaves
the registry. -/
def unregister_net_sysctl_table (s : State) (hdr : Nat) : State :=
  { s with sysctl := s.sysctl.filter (fun h => h.addr != hdr),
           trace := s.trace ++ [Op.unregister_net_sysctl_table hdr] }

/-- The assignment `table[0].data = d` on a table value. -/
def set_data0 (t : List ctl_table) (d : DataPtr) : List ctl_table :=
  match t with
  | [] => []
  | e :: rest => { e with data := d } :: rest

/-- The store `table[0].data = d` through a table pointer. -/
def store_data0 (s : State) (table : TablePtr) (d : DataPtr) : State :=
  match table with
  | .null => s
  | .static_template => { s with static_table := set_data0 s.static_table d }
  | .heap a =>
    { s with heap := s.heap.map (fun b => if b.1 == a then (b.1, set_data0 b.2 d) else b) }

/-! ## net/mptcp/ctrl.c : functions -/

def mptcp_get_pernet (net : NetId) : PernetPtr := net

def mptcp_is_enabled (s : State) (net : NetId) : Int :=
  (s.pernet (mptcp_get_pernet net)).mptcp_enabled

def mptcp_pernet_set_defaults (s : State) (pernet : PernetPtr) : State :=
  { s with pernet := Function.update s.pernet pernet
                       { s.pernet pernet with mptcp_enabled := 1 } }

/-- The allocation step of mptcp_pernet_new_table: `table = mptcp_sysctl_table`,
replaced by a kmemdup copy when the namespace is not init_net. -/
def new_table_alloc (s : State) (net : NetId) (alloc_ok : Bool) : TablePtr × State :=
  if !net_eq net init_net then kmemdup s .static_template alloc_ok
  else (.static_template, s)

/-- Here `alloc_ok` and `reg_ok` are the environment's choices for the two calls that can
fail for lack of resources.  The result is the returned int and the memory after. -/
def mptcp_pernet_new_table (s : State) (net : NetId) (pernet : PernetPtr)
    (alloc_ok reg_ok : Bool) : Except Fault (Int × State) :=
  match new_table_alloc s net alloc_ok with
  | (table, s1) =>
    if !net_eq net init_net && table == .null then
      -- goto err_alloc
      .ok (-ENOMEM, s1)
    else
      let s2 := store_data0 s1 table (.mptcp_enabled_of pernet)
      match register_net_sysctl s2 net MPTCP_SYSCTL_PATH table reg_ok with
      | (some hdr, s3) =>
        .ok (0, { s3 with pernet := Function.update s3.pernet pernet
                                      { s3.pernet pernet with ctl_table_hdr := some hdr } })
      | (none, s3) =>
        -- err_reg
        if !net_eq net init_net then
          match kfree s3 table with
          | .ok s4 => .ok (-ENOMEM, s4)
          | .error f => .error f
        else .ok (-ENOMEM, s3)

def mptcp_pernet_del_table (s : State) (pernet : PernetPtr) : Except Fault State :=
  match (s.pernet pernet).ctl_table_hdr with
  | none => .error .null_deref
  | some hdr =>
    match header_at s hdr with
    | none => .error .dangling_header
    | some h =>
      let table := h.ctl_table_arg
      let s1 := unregister_net_sysctl_table s hdr
      kfree s1 table

def mptcp_net_init (s : State) (net : NetId) (alloc_ok reg_ok : Bool) :
    Except Fault (Int × State) :=
  let pernet := mptcp_get_pernet net
  let s1 := mptcp_pernet_set_defaults s pernet
  mptcp_pernet_new_table s1 net pernet alloc_ok reg_ok

def mptcp_net_exit (s : State) (net : NetId) : Except Fault State :=
  let pernet := mptcp_get_pernet net
  mptcp_pernet_del_table s pernet

/-- The parts of `struct pernet_operations` that ctrl.c fills in (`id` points at the
file-local slot number and carries no behaviour). -/
structure pernet_operations where
  init : State → NetId → Bool → Bool → Except Fault (Int × State)
  exit : State → NetId → Except Fault State
  size : Nat

/-- Size of `struct mptcp_pernet` on an LP64 target: an 8-byte pointer, a 4-byte int
and 4 bytes of tail padding. -/
def sizeof_mptcp_pernet : Nat := 16

def mptcp_pernet_ops : pernet_operations :=
  { init := mptcp_net_init,
    exit := mptcp_net_exit,
    size := sizeof_mptcp_pernet }

/-- Calls made by mptcp_init, in program order; the registration call carries its
argument and its result. -/
inductive BootCall
  | mptcp_join_cookie_init
  | mptcp_proto_init
  | register_pernet_subsys (ops : pernet_operations) (ret : Int)

/-- How mptcp_init ends. -/
inductive BootOutcome
  | returned
  | panicked (msg : String)
  deriving DecidableEq, Repr

/-- The function register_pernet_subsys is defined outside the two source files and
is taken as a parameter: any function from the operations record to an int. -/
def mptcp_init (register_pernet_subsys : pernet_operations → Int) :
    BootOutcome × List BootCall :=
  let log : List BootCall := [BootCall.mptcp_join_cookie_init]
  let log := log ++ [BootCall.mptcp_proto_init]
  let r := register_pernet_subsys mptcp_pernet_ops
  let log := log ++ [BootCall.register_pernet_subsys mptcp_pernet_ops r]
  if r < 0 then (.panicked "Failed to register MPTCP pernet subsystem.\n", log)
  else (.returned, log)

/-! ## The control surface and the namespace subsystem -/

/-- Modelled from the spec: proc_dointvec is defined outside the two source files.
"PUT parses an integer and stores it into enabled": a write stores the value in the
int the entry's data slot points at (a NULL slot makes it a no-op). -/
def proc_dointvec_write (s : State) (e : ctl_table) (v : Int) : State :=
  match e.data with
  | .null => s
  | .mptcp_enabled_of p =>
    { s with pernet := Function.update s.pernet p { s.pernet p with mptcp_enabled := v } }

/-- Modelled from the spec: the dispatch of an operator's write is outside the two
source files.  The entry `procname` under `path` in namespace `net` is looked up
(`none` is "not found") and its handler is run on the value. -/
def sysctl_write (s : State) (net : NetId) (path procname : String) (v : Int) :
    Option State :=
  match sysctl_lookup s net path with
  | none => none
  | some h =>
    match table_at s h.ctl_table_arg with
    | none => none
    | some t =>
      match t.find? (fun e => e.procname == some procname) with
      | none => none
      | some e =>
        match e.proc_handler with
        | .proc_dointvec => some (proc_dointvec_write s e v)
        | .none => none

/-- The data slot of the entry registered for `net` at the MPTCP path. -/
def entry_data (s : State) (net : NetId) : Option DataPtr :=
  match sysctl_lookup s net MPTCP_SYSCTL_PATH with
  | none => none
  | some h =>
    match table_at s h.ctl_table_arg with
    | some (e :: _) => some e.data
    | _ => none

/-- A notification from the namespace subsystem: creation of a namespace (with the
environment's two resource choices) or its destruction. -/
inductive Event
  | create (net : NetId) (alloc_ok reg_ok : Bool)
  | destroy (net : NetId)
  deriving DecidableEq, Repr

def Event.net : Event → NetId
  | .create n _ _ => n
  | .destroy n => n

/-- One notification: the hook runs; `live` records the namespaces whose creation
hook returned 0 and that have not been destroyed since. -/
def netns_step (s : State) (live : List NetId) : Event → Except Fault (State × List NetId)
  | .create n a r =>
    match mptcp_net_init s n a r with
    | .ok (ret, s1) => .ok (s1, if ret = 0 then n :: live else live)
    | .error f => .error f
  | .destroy n =>
    match mptcp_net_exit s n with
    | .ok s1 => .ok (s1, live.filter (fun m => m != n))
    | .error f => .error f

/-- A sequence of notifications, stopping at the first fault. -/
def netns_run (s : State) (live : List NetId) : List Event → Except Fault (State × List NetId)
  | [] => .ok (s, live)
  | e :: es =>
    match netns_step s live e with
    | .ok (s1, live1) => netns_run s1 live1 es
    | .error f => .error f

/-- The namespace subsystem's side of the contract: the destruction hook is called
only for a namespace other than init_net whose creation hook succeeded and that has
not been destroyed since. -/
def admissible (s : State) (live : List NetId) : List Event → Bool
  | [] => true
  | e :: es =>
    (match e with
     | .destroy n => !net_eq n init_net && live.contains n
     | .create _ _ _ => true) &&
    (match netns_step s live e with
     | .ok (s1, live1) => admissible s1 live1 es
     | .error _ => true)

/-- The three operations of the lifecycle manager on the instance of one namespace. -/
inductive InstOp
  | apply_defaults
  | publish (alloc_ok reg_ok : Bool)
  | retire
  deriving DecidableEq, Repr

def inst_step (s : State) (net : NetId) : InstOp → Except Fault State
  | .apply_defaults => .ok (mptcp_pernet_set_defaults s (mptcp_get_pernet net))
  | .publish a r =>
    match mptcp_pernet_new_table s net (mptcp_get_pernet net) a r with
    | .ok (_, s1) => .ok s1
    | .error f => .error f
  | .retire => mptcp_pernet_del_table s (mptcp_get_pernet net)

def inst_run (s : State) (net : NetId) : List InstOp → Except Fault State
  | [] => .ok s
  | o :: os =>
    match inst_step s net o with
    | .ok s1 => inst_run s1 net os
    | .error f => .error f

/-- Whether an entry is registered for `net` at the MPTCP path. -/
def entry_registered (s : State) (net : NetId) : Bool :=
  (sysctl_lookup s net MPTCP_SYSCTL_PATH).isSome

/-- Addresses of the live heap blocks. -/
def live_blocks (s : State) : List Nat := s.heap.map Prod.fst

/-! ## Predicates used to state the invariants -/

/-- Namespace `n` is published: its record holds the address of a registered header
for `n` at the MPTCP path, the header's table is live, and the first entry of that
table is the "enabled" entry handled by proc_dointvec with its data slot pointing at
`n`'s own flag.  For init_net the table is the static template; for any other namespace
it is a heap block that the log shows returned by kmemdup and registered for `n`. -/
def Published (s : State) (n : NetId) : Prop :=
  ∃ H e rest,
    sysctl_lookup s n MPTCP_SYSCTL_PATH = some H ∧
    (s.pernet (mptcp_get_pernet n)).ctl_table_hdr = some H.addr ∧
    header_at s H.addr = some H ∧
    table_at s H.ctl_table_arg = some (e :: rest) ∧
    e.procname = some "enabled" ∧
    e.proc_handler = .proc_dointvec ∧
    e.data = .mptcp_enabled_of (mptcp_get_pernet n) ∧
    ((n = init_net ∧ H.ctl_table_arg = .static_template) ∨
     (n ≠ init_net ∧ ∃ a, H.ctl_table_arg = .heap a ∧
        Op.kmemdup .static_template (.heap a) ∈ s.trace ∧
        Op.register_net_sysctl n MPTCP_SYSCTL_PATH (.heap a) (some H.addr) ∈ s.trace))

/-- The invariant of the hooks: the static template starts with the "enabled" entry,
kfree has only ever been called on heap blocks, and every live namespace is
published. -/
def Inv (s : State) (live : List NetId) : Prop :=
  (∃ e rest, s.static_table = e :: rest ∧ e.procname = some "enabled" ∧
    e.proc_handler = .proc_dointvec) ∧
  (∀ p, Op.kfree p ∈ s.trace → ∃ a, p = .heap a) ∧
  (∀ n ∈ live, Published s n)

/-- Number of kmemdup calls in a log that returned the block at address `a`. -/
def allocs_of (a : Nat) (tr : List Op) : Nat :=
  tr.countP (fun o => match o with
    | .kmemdup _ (.heap b) => b == a
    | _ => false)

/-- Number of kfree calls in a log on the block at address `a`. -/
def frees_of (a : Nat) (tr : List Op) : Nat :=
  tr.countP (fun o => match o with
    | .kfree (.heap b) => b == a
    | _ => false)

/-- The log and the heap agree: every address was freed exactly as often as it was
allocated, less once while it is live. -/
def Balanced (s : State) : Prop :=
  ∀ a, allocs_of a s.trace = frees_of a s.trace + (if a ∈ live_blocks s then 1 else 0)

/-! ## Theorems: TCP state flags -/

theorem fresh_gt (used : List Nat) : ∀ x ∈ used, x < fresh used := by
  induction used with
  | nil => simp
  | cons y ys ih =>
    intro x hx
    simp only [fresh, List.foldr_cons] at ih ⊢
    rcases List.mem_cons.mp hx with rfl | h
    · omega
    · have := ih x h
      omega

theorem and_shift_ne_zero (i m : Nat) : ((1 <<< i) &&& m) ≠ 0 ↔ m.testBit i = true := by
  rw [Nat.one_shiftLeft, Nat.two_pow_and]
  cases h : m.testBit i <;> simp

theorem tcp_state_flag_eq (s : tcp_state) : s.flag = 2 ^ s.val := by
  cases s <;> rfl

theorem tcp_state_val_injective (s t : tcp_state) (h : s.val = t.val) : s = t := by
  cases s <;> cases t <;> first | rfl | (exact absurd h (by decide))

theorem state_mask_testBit (S : List tcp_state) (i : Nat) :
    (state_mask S).testBit i = true ↔ ∃ t ∈ S, t.val = i := by
  induction S with
  | nil => simp [state_mask]
  | cons t ts ih =>
    have h : state_mask (t :: ts) = t.flag ||| state_mask ts := rfl
    rw [h, Nat.testBit_or, Bool.or_eq_true, ih, tcp_state_flag_eq, Nat.testBit_two_pow]
    simp

/-- C9: the states take the consecutive values 1..12 with TCP_MAX_STATES = 13, the
flag of every state s is 1 << s, and for every collection S of states and every state
s the test ((1 << s) & mask(S)) != 0 holds exactly when s is in S. -/
theorem tcp_state_flags_membership :
    tcp_state.all.map tcp_state.val = [1, 2, 3, 4, 5, 6, 7, 8, 9, 10, 11, 12] ∧
    (∀ s : tcp_state, s ∈ tcp_state.all) ∧
    TCP_MAX_STATES = 13 ∧
    (∀ s : tcp_state, s.flag = 1 <<< s.val) ∧
    (∀ (S : List tcp_state) (s : tcp_state),
      state_in_mask s (state_mask S) = true ↔ s ∈ S) := by
  refine ⟨by decide, ?_, by decide, ?_, ?_⟩
  · intro s; cases s <;> decide
  · intro s; cases s <;> rfl
  · intro S s
    have h1 : state_in_mask s (state_mask S) = true ↔ ((1 <<< s.val) &&& state_mask S) ≠ 0 := by
      simp [state_in_mask]
    rw [h1, and_shift_ne_zero, state_mask_testBit]
    constructor
    · rintro ⟨t, ht, hv⟩
      rw [← tcp_state_val_injective t s hv]; exact ht
    · intro hs; exact ⟨s, hs, rfl⟩

/-! ## Theorems: the lifecycle manager, case by case -/

theorem heap_filter_fresh (heap : List (Nat × List ctl_table)) :
    heap.filter (fun b => b.1 != fresh (heap.map Prod.fst)) = heap := by
  rw [List.filter_eq_self]
  intro b hb
  have := fresh_gt (heap.map Prod.fst) b.1 (List.mem_map_of_mem _ hb)
  simp; omega

theorem heap_map_fresh (heap : List (Nat × List ctl_table))
    (f : List ctl_table → List ctl_table) :
    heap.map (fun b => if b.1 = fresh (heap.map Prod.fst) then (b.1, f b.2) else b) = heap := by
  conv_rhs => rw [← List.map_id heap]
  apply List.map_congr_left
  intro b hb
  have := fresh_gt (heap.map Prod.fst) b.1 (List.mem_map_of_mem _ hb)
  have h : b.1 ≠ fresh (heap.map Prod.fst) := by omega
  simp [h]

theorem sysctl_filter_fresh (l : List ctl_table_header) :
    l.filter (fun h => h.addr != fresh (l.map ctl_table_header.addr)) = l := by
  rw [List.filter_eq_self]
  intro b hb
  have := fresh_gt (l.map ctl_table_header.addr) b.addr (List.mem_map_of_mem _ hb)
  simp; omega

/-- Publish for a secondary namespace when the copy cannot be allocated. -/
theorem new_table_secondary_alloc_fail (s : State) (net : NetId) (pernet : PernetPtr)
    (r : Bool) (hne : net ≠ init_net) :
    mptcp_pernet_new_table s net pernet false r =
      .ok (-ENOMEM, { s with trace := s.trace ++ [Op.kmemdup .static_template .null] }) := by
  simp [mptcp_pernet_new_table, new_table_alloc, net_eq, hne, kmemdup]


theorem register_ok (s : State) (net : NetId) (path : String) (t : TablePtr) (r : Bool)
    (h : (r && (sysctl_lookup s net path).isNone) = true) :
    register_net_sysctl s net path t r =
      (some (fresh (s.sysctl.map ctl_table_header.addr)),
       { s with sysctl := { addr := fresh (s.sysctl.map ctl_table_header.addr), net := net,
                            path := path, ctl_table_arg := t } :: s.sysctl,
                trace := s.trace ++ [Op.register_net_sysctl net path t
                  (some (fresh (s.sysctl.map ctl_table_header.addr)))] }) := by
  unfold register_net_sysctl
  rw [if_pos h]

theorem register_fail (s : State) (net : NetId) (path : String) (t : TablePtr) (r : Bool)
    (h : (r && (sysctl_lookup s net path).isNone) = false) :
    register_net_sysctl s net path t r =
      (none, { s with trace := s.trace ++ [Op.register_net_sysctl net path t none] }) := by
  unfold register_net_sysctl
  rw [if_neg (by simp [h])]

theorem new_table_alloc_secondary_ok (s : State) (net : NetId) (hne : net ≠ init_net) :
    new_table_alloc s net true =
      (.heap (fresh (s.heap.map Prod.fst)),
       { s with heap := (fresh (s.heap.map Prod.fst), s.static_table) :: s.heap,
                trace := s.trace ++
                  [Op.kmemdup .static_template (.heap (fresh (s.heap.map Prod.fst)))] }) := by
  simp [new_table_alloc, net_eq, hne, kmemdup, table_at]

theorem store_data0_new_block (s : State) (t : List ctl_table) (d : DataPtr) (tr : List Op) :
    store_data0 { s with heap := (fresh (s.heap.map Prod.fst), t) :: s.heap, trace := tr }
        (.heap (fresh (s.heap.map Prod.fst))) d =
      { s with heap := (fresh (s.heap.map Prod.fst), set_data0 t d) :: s.heap, trace := tr } := by
  have hm := heap_map_fresh s.heap (fun t => set_data0 t d)
  simp only [] at hm
  simp [store_data0, hm]

theorem kfree_new_block (s : State) (t : List ctl_table) (tr : List Op) :
    kfree { s with heap := (fresh (s.heap.map Prod.fst), t) :: s.heap, trace := tr }
        (.heap (fresh (s.heap.map Prod.fst))) =
      .ok { s with trace := tr ++ [Op.kfree (.heap (fresh (s.heap.map Prod.fst)))] } := by
  have hf := heap_filter_fresh s.heap
  simp [kfree, hf]

/-- Publish for a secondary namespace when both steps succeed. -/
theorem new_table_secondary_ok (s : State) (net : NetId) (pernet : PernetPtr) (r : Bool)
    (hne : net ≠ init_net)
    (hreg : (r && (sysctl_lookup s net MPTCP_SYSCTL_PATH).isNone) = true) :
    mptcp_pernet_new_table s net pernet true r =
      .ok (0,
        { pernet := Function.update s.pernet pernet
            { s.pernet pernet with
              ctl_table_hdr := some (fresh (s.sysctl.map ctl_table_header.addr)) },
          static_table := s.static_table,
          heap := (fresh (s.heap.map Prod.fst),
                   set_data0 s.static_table (.mptcp_enabled_of pernet)) :: s.heap,
          sysctl := { addr := fresh (s.sysctl.map ctl_table_header.addr), net := net,
                      path := MPTCP_SYSCTL_PATH,
                      ctl_table_arg := .heap (fresh (s.heap.map Prod.fst)) } :: s.sysctl,
          trace := s.trace ++
            [Op.kmemdup .static_template (.heap (fresh (s.heap.map Prod.fst))),
             Op.register_net_sysctl net MPTCP_SYSCTL_PATH (.heap (fresh (s.heap.map Prod.fst)))
               (some (fresh (s.sysctl.map ctl_table_header.addr)))] }) := by
  unfold mptcp_pernet_new_table
  rw [new_table_alloc_secondary_ok s net hne]
  simp only [store_data0_new_block]
  rw [register_ok _ _ _ _ r (by simpa [sysctl_lookup] using hreg)]
  simp [net_eq, hne]

/-- Publish for a secondary namespace when the copy is made and registration fails. -/
theorem new_table_secondary_reg_fail (s : State) (net : NetId) (pernet : PernetPtr) (r : Bool)
    (hne : net ≠ init_net)
    (hreg : (r && (sysctl_lookup s net MPTCP_SYSCTL_PATH).isNone) = false) :
    mptcp_pernet_new_table s net pernet true r =
      .ok (-ENOMEM,
        { s with trace := s.trace ++
            [Op.kmemdup .static_template (.heap (fresh (s.heap.map Prod.fst))),
             Op.register_net_sysctl net MPTCP_SYSCTL_PATH (.heap (fresh (s.heap.map Prod.fst)))
               none,
             Op.kfree (.heap (fresh (s.heap.map Prod.fst)))] }) := by
  unfold mptcp_pernet_new_table
  rw [new_table_alloc_secondary_ok s net hne]
  simp only [store_data0_new_block]
  rw [register_fail _ _ _ _ r (by simpa [sysctl_lookup] using hreg)]
  simp only [kfree_new_block]
  simp [net_eq, hne]

/-- Publish for init_net when registration succeeds. -/
theorem new_table_default_ok (s : State) (pernet : PernetPtr) (a r : Bool)
    (hreg : (r && (sysctl_lookup s init_net MPTCP_SYSCTL_PATH).isNone) = true) :
    mptcp_pernet_new_table s init_net pernet a r =
      .ok (0,
        { pernet := Function.update s.pernet pernet
            { s.pernet pernet with
              ctl_table_hdr := some (fresh (s.sysctl.map ctl_table_header.addr)) },
          static_table := set_data0 s.static_table (.mptcp_enabled_of pernet),
          heap := s.heap,
          sysctl := { addr := fresh (s.sysctl.map ctl_table_header.addr), net := init_net,
                      path := MPTCP_SYSCTL_PATH,
                      ctl_table_arg := .static_template } :: s.sysctl,
          trace := s.trace ++
            [Op.register_net_sysctl init_net MPTCP_SYSCTL_PATH .static_template
               (some (fresh (s.sysctl.map ctl_table_header.addr)))] }) := by
  unfold mptcp_pernet_new_table
  simp only [new_table_alloc, net_eq, beq_self_eq_true, Bool.not_true, Bool.false_eq_true,
    if_false, Bool.false_and, store_data0]
  rw [register_ok _ _ _ _ r (by simpa [sysctl_lookup] using hreg)]

/-- Publish for init_net when registration fails. -/
theorem new_table_default_reg_fail (s : State) (pernet : PernetPtr) (a r : Bool)
    (hreg : (r && (sysctl_lookup s init_net MPTCP_SYSCTL_PATH).isNone) = false) :
    mptcp_pernet_new_table s init_net pernet a r =
      .ok (-ENOMEM,
        { s with static_table := set_data0 s.static_table (.mptcp_enabled_of pernet),
                 trace := s.trace ++
                   [Op.register_net_sysctl init_net MPTCP_SYSCTL_PATH .static_template none] }) := by
  unfold mptcp_pernet_new_table
  simp only [new_table_alloc, net_eq, beq_self_eq_true, Bool.not_true, Bool.false_eq_true,
    if_false, Bool.false_and, store_data0]
  rw [register_fail _ _ _ _ r (by simpa [sysctl_lookup] using hreg)]

/-- Every call of publish returns (no fault), with 0 or -ENOMEM. -/
theorem new_table_cases (s : State) (net : NetId) (a r : Bool) :
    (net ≠ init_net ∧ a = false) ∨
    (net ≠ init_net ∧ a = true ∧
      (r && (sysctl_lookup s net MPTCP_SYSCTL_PATH).isNone) = false) ∨
    (net ≠ init_net ∧ a = true ∧
      (r && (sysctl_lookup s net MPTCP_SYSCTL_PATH).isNone) = true) ∨
    (net = init_net ∧ (r && (sysctl_lookup s net MPTCP_SYSCTL_PATH).isNone) = false) ∨
    (net = init_net ∧ (r && (sysctl_lookup s net MPTCP_SYSCTL_PATH).isNone) = true) := by
  by_cases hne : net = init_net
  · cases h : (r && (sysctl_lookup s net MPTCP_SYSCTL_PATH).isNone) <;> simp [hne]
  · cases a <;> cases h : (r && (sysctl_lookup s net MPTCP_SYSCTL_PATH).isNone) <;> simp [hne]

theorem ENOMEM_ne_zero : -ENOMEM ≠ 0 := by decide

/-- What a 0 return of publish implies. -/
theorem new_table_zero (s : State) (net : NetId) (pernet : PernetPtr) (a r : Bool) (s1 : State)
    (h : mptcp_pernet_new_table s net pernet a r = .ok (0, s1)) :
    (r && (sysctl_lookup s net MPTCP_SYSCTL_PATH).isNone) = true ∧
    (net ≠ init_net → a = true) := by
  rcases new_table_cases s net a r with ⟨hne, ha⟩ | ⟨hne, ha, hr⟩ | ⟨hne, ha, hr⟩ |
    ⟨he, hr⟩ | ⟨he, hr⟩
  · subst ha
    rw [new_table_secondary_alloc_fail s net pernet r hne] at h
    injection h with h; injection h with h _; exact absurd h ENOMEM_ne_zero
  · subst ha
    rw [new_table_secondary_reg_fail s net pernet r hne hr] at h
    injection h with h; injection h with h _; exact absurd h ENOMEM_ne_zero
  · exact ⟨hr, fun _ => ha⟩
  · subst he
    rw [new_table_default_reg_fail s pernet a r hr] at h
    injection h with h; injection h with h _; exact absurd h ENOMEM_ne_zero
  · exact ⟨hr, fun hne => absurd he hne⟩


/-- Publish never faults and returns 0 or -ENOMEM. -/
theorem new_table_total (s : State) (net : NetId) (pernet : PernetPtr) (a r : Bool) :
    ∃ e s1, mptcp_pernet_new_table s net pernet a r = .ok (e, s1) ∧ (e = 0 ∨ e = -ENOMEM) := by
  rcases new_table_cases s net a r with ⟨hne, ha⟩ | ⟨hne, ha, hr⟩ | ⟨hne, ha, hr⟩ |
    ⟨he, hr⟩ | ⟨he, hr⟩
  · subst ha; exact ⟨_, _, new_table_secondary_alloc_fail s net pernet r hne, Or.inr rfl⟩
  · subst ha; exact ⟨_, _, new_table_secondary_reg_fail s net pernet r hne hr, Or.inr rfl⟩
  · subst ha; exact ⟨_, _, new_table_secondary_ok s net pernet r hne hr, Or.inl rfl⟩
  · subst he; exact ⟨_, _, new_table_default_reg_fail s pernet a r hr, Or.inr rfl⟩
  · subst he; exact ⟨_, _, new_table_default_ok s pernet a r hr, Or.inl rfl⟩

/-- The memory after a publish that returned 0, field by field. -/
theorem new_table_zero_fields (s : State) (net : NetId) (pernet : PernetPtr) (a r : Bool)
    (s1 : State) (h : mptcp_pernet_new_table s net pernet a r = .ok (0, s1)) :
    sysctl_lookup s net MPTCP_SYSCTL_PATH = none ∧
    s1.pernet = Function.update s.pernet pernet
      { s.pernet pernet with
        ctl_table_hdr := some (fresh (s.sysctl.map ctl_table_header.addr)) } ∧
    ∃ tbl,
      s1.sysctl = { addr := fresh (s.sysctl.map ctl_table_header.addr), net := net,
                    path := MPTCP_SYSCTL_PATH, ctl_table_arg := tbl } :: s.sysctl ∧
      ((net = init_net ∧ tbl = .static_template ∧
        s1.static_table = set_data0 s.static_table (.mptcp_enabled_of pernet) ∧
        s1.heap = s.heap ∧
        s1.trace = s.trace ++
          [Op.register_net_sysctl net MPTCP_SYSCTL_PATH .static_template
            (some (fresh (s.sysctl.map ctl_table_header.addr)))]) ∨
       (net ≠ init_net ∧ tbl = .heap (fresh (s.heap.map Prod.fst)) ∧
        s1.static_table = s.static_table ∧
        s1.heap = (fresh (s.heap.map Prod.fst),
                   set_data0 s.static_table (.mptcp_enabled_of pernet)) :: s.heap ∧
        s1.trace = s.trace ++
          [Op.kmemdup .static_template (.heap (fresh (s.heap.map Prod.fst))),
           Op.register_net_sysctl net MPTCP_SYSCTL_PATH (.heap (fresh (s.heap.map Prod.fst)))
             (some (fresh (s.sysctl.map ctl_table_header.addr)))])) := by
  obtain ⟨hreg, ha⟩ := new_table_zero _ _ _ _ _ _ h
  have hnone : sysctl_lookup s net MPTCP_SYSCTL_PATH = none := by
    simp only [Bool.and_eq_true, Option.isNone_iff_eq_none] at hreg
    exact hreg.2
  refine ⟨hnone, ?_⟩
  by_cases hne : net = init_net
  · subst hne
    rw [new_table_default_ok _ _ a r hreg] at h
    injection h with h; injection h with _ h; subst h
    exact ⟨rfl, _, rfl, Or.inl ⟨rfl, rfl, rfl, rfl, rfl⟩⟩
  · have ha1 := ha hne
    subst ha1
    rw [new_table_secondary_ok _ _ _ r hne hreg] at h
    injection h with h; injection h with _ h; subst h
    exact ⟨rfl, _, rfl, Or.inr ⟨hne, rfl, rfl, rfl, rfl⟩⟩

/-- The memory after a publish that returned an error, field by field. -/
theorem new_table_nonzero_fields (s : State) (net : NetId) (pernet : PernetPtr) (a r : Bool)
    (e : Int) (s1 : State) (h : mptcp_pernet_new_table s net pernet a r = .ok (e, s1))
    (he : e ≠ 0) :
    e = -ENOMEM ∧ s1.pernet = s.pernet ∧ s1.sysctl = s.sysctl ∧ s1.heap = s.heap ∧
    (net ≠ init_net → s1.static_table = s.static_table) ∧
    (net = init_net →
      s1.static_table = set_data0 s.static_table (.mptcp_enabled_of pernet)) ∧
    ∃ ops, s1.trace = s.trace ++ ops ∧ ∀ p, Op.kfree p ∈ ops → ∃ b, p = .heap b := by
  rcases new_table_cases s net a r with ⟨hne, ha⟩ | ⟨hne, ha, hr⟩ | ⟨hne, ha, hr⟩ |
    ⟨he1, hr⟩ | ⟨he1, hr⟩
  · subst ha
    rw [new_table_secondary_alloc_fail s net pernet r hne] at h
    injection h with h; injection h with h1 h; subst h; subst h1
    exact ⟨rfl, rfl, rfl, rfl, fun _ => rfl, fun h => absurd h hne, _, rfl, by simp⟩
  · subst ha
    rw [new_table_secondary_reg_fail s net pernet r hne hr] at h
    injection h with h; injection h with h1 h; subst h; subst h1
    exact ⟨rfl, rfl, rfl, rfl, fun _ => rfl, fun h => absurd h hne, _, rfl, by simp⟩
  · subst ha
    rw [new_table_secondary_ok s net pernet r hne hr] at h
    injection h with h; injection h with h1 h
    exact absurd h1.symm he
  · subst he1
    rw [new_table_default_reg_fail s pernet a r hr] at h
    injection h with h; injection h with h1 h; subst h; subst h1
    exact ⟨rfl, rfl, rfl, rfl, fun h => absurd rfl h, fun _ => rfl, _, rfl, by simp⟩
  · subst he1
    rw [new_table_default_ok s pernet a r hr] at h
    injection h with h; injection h with h1 h
    exact absurd h1.symm he

theorem net_init_eq (s : State) (net : NetId) (a r : Bool) :
    mptcp_net_init s net a r =
      mptcp_pernet_new_table (mptcp_pernet_set_defaults s (mptcp_get_pernet net)) net
        (mptcp_get_pernet net) a r := rfl

/-- C1: for every namespace N and every prior memory (so every prior content of N's
record), if mptcp_net_init(N) returns 0 then afterwards mptcp_is_enabled(N) is 1 and
N's ctl_table_hdr holds the non-null header that the registration call for path
"net/mptcp" in namespace N returned (the last external call of the hook); that header
is registered, so the control surface has an entry for N at that path. -/
theorem net_init_success_publishes (s : State) (N : NetId) (a r : Bool) (s1 : State)
    (h : mptcp_net_init s N a r = .ok (0, s1)) :
    mptcp_is_enabled s1 N = 1 ∧
    ∃ hdr tbl,
      (s1.pernet (mptcp_get_pernet N)).ctl_table_hdr = some hdr ∧
      s1.trace.getLast? = some (Op.register_net_sysctl N "net/mptcp" tbl (some hdr)) ∧
      header_at s1 hdr = some { addr := hdr, net := N, path := "net/mptcp",
                                ctl_table_arg := tbl } ∧
      sysctl_lookup s1 N "net/mptcp" = some { addr := hdr, net := N, path := "net/mptcp",
                                              ctl_table_arg := tbl } ∧
      entry_registered s1 N = true := by
  rw [net_init_eq] at h
  obtain ⟨_, hp, tbl, hs, hcase⟩ := new_table_zero_fields _ _ _ _ _ _ h
  have htr : s1.trace.getLast? = some (Op.register_net_sysctl N "net/mptcp" tbl
      (some (fresh (s.sysctl.map ctl_table_header.addr)))) := by
    rcases hcase with ⟨_, ht, _, _, htr⟩ | ⟨_, ht, _, _, htr⟩
    · rw [htr, ht]; simp [mptcp_pernet_set_defaults, MPTCP_SYSCTL_PATH]
    · rw [htr, ht]; simp [mptcp_pernet_set_defaults, MPTCP_SYSCTL_PATH]
  refine ⟨?_, fresh (s.sysctl.map ctl_table_header.addr), tbl, ?_, htr, ?_, ?_, ?_⟩
  · simp [mptcp_is_enabled, hp, mptcp_pernet_set_defaults]
  · simp [hp, mptcp_pernet_set_defaults]
  · simp [header_at, hs, mptcp_pernet_set_defaults, MPTCP_SYSCTL_PATH]
  · simp [sysctl_lookup, hs, mptcp_pernet_set_defaults, MPTCP_SYSCTL_PATH]
  · simp [entry_registered, sysctl_lookup, hs, mptcp_pernet_set_defaults]

theorem net_init_success_publishes_witness :
    ∃ s1, mptcp_net_init boot 1 true true = .ok (0, s1) ∧
      (mptcp_is_enabled s1 1 = 1 ∧
       ∃ hdr tbl,
        (s1.pernet (mptcp_get_pernet 1)).ctl_table_hdr = some hdr ∧
        s1.trace.getLast? = some (Op.register_net_sysctl 1 "net/mptcp" tbl (some hdr)) ∧
        header_at s1 hdr = some { addr := hdr, net := 1, path := "net/mptcp",
                                  ctl_table_arg := tbl } ∧
        sysctl_lookup s1 1 "net/mptcp" = some { addr := hdr, net := 1, path := "net/mptcp",
                                                ctl_table_arg := tbl } ∧
        entry_registered s1 1 = true) :=
  ⟨_, rfl, net_init_success_publishes boot 1 true true _ rfl⟩

/-- C3: for every namespace and every failing run of mptcp_pernet_new_table, whether
the copy cannot be allocated (a secondary namespace with the allocation refused) or the
registration fails (refused, or the path already occupied), the call returns the
non-zero error -ENOMEM, leaves every per-namespace record (so the instance's
ctl_table_hdr) unchanged, leaves the registry exactly as it was (the call leaves no
entry behind: a namespace with no entry before has none after) and leaves the live
heap blocks exactly as they were; when a copy was made, the log shows it freed
(kfree of the very block kmemdup returned) as the last step before returning. -/
theorem publish_failure_rolls_back (s : State) (net : NetId) (pernet : PernetPtr)
    (a r : Bool)
    (hfail : (net ≠ init_net ∧ a = false) ∨
             (r && (sysctl_lookup s net MPTCP_SYSCTL_PATH).isNone) = false) :
    ∃ s1, mptcp_pernet_new_table s net pernet a r = .ok (-ENOMEM, s1) ∧
      -ENOMEM ≠ 0 ∧
      s1.pernet = s.pernet ∧
      (s1.pernet pernet).ctl_table_hdr = (s.pernet pernet).ctl_table_hdr ∧
      s1.sysctl = s.sysctl ∧
      entry_registered s1 net = entry_registered s net ∧
      (entry_registered s net = false → sysctl_lookup s1 net MPTCP_SYSCTL_PATH = none) ∧
      s1.heap = s.heap ∧
      live_blocks s1 = live_blocks s ∧
      (net ≠ init_net → a = true →
        s1.trace = s.trace ++
          [Op.kmemdup .static_template (.heap (fresh (s.heap.map Prod.fst))),
           Op.register_net_sysctl net MPTCP_SYSCTL_PATH (.heap (fresh (s.heap.map Prod.fst)))
             none,
           Op.kfree (.heap (fresh (s.heap.map Prod.fst)))]) := by
  have hlk : ∀ s1 : State, s1.sysctl = s.sysctl →
      entry_registered s net = false → sysctl_lookup s1 net MPTCP_SYSCTL_PATH = none := by
    intro s1 h1 h2
    simp only [entry_registered, sysctl_lookup] at h2 ⊢
    rw [h1]
    cases h : List.find? (fun h => h.net == net && h.path == MPTCP_SYSCTL_PATH) s.sysctl with
    | none => rfl
    | some x => rw [h] at h2; simp at h2
  rcases new_table_cases s net a r with ⟨hne, ha⟩ | ⟨hne, ha, hr⟩ | ⟨hne, ha, hr⟩ |
    ⟨he, hr⟩ | ⟨he, hr⟩
  · subst ha
    refine ⟨_, new_table_secondary_alloc_fail s net pernet r hne, ENOMEM_ne_zero,
      rfl, rfl, rfl, rfl, hlk _ rfl, rfl, rfl, ?_⟩
    intro _ h; exact absurd h (by decide)
  · subst ha
    exact ⟨_, new_table_secondary_reg_fail s net pernet r hne hr, ENOMEM_ne_zero,
      rfl, rfl, rfl, rfl, hlk _ rfl, rfl, rfl, fun _ _ => rfl⟩
  · rcases hfail with ⟨_, h⟩ | h
    · rw [ha] at h; exact absurd h (by decide)
    · rw [hr] at h; exact absurd h (by decide)
  · subst he
    exact ⟨_, new_table_default_reg_fail s pernet a r hr, ENOMEM_ne_zero,
      rfl, rfl, rfl, rfl, hlk _ rfl, rfl, rfl, fun h => absurd rfl h⟩
  · rcases hfail with ⟨h, _⟩ | h
    · exact absurd he h
    · rw [hr] at h; exact absurd h (by decide)

theorem publish_failure_rolls_back_witness :
    ((2 : NetId) ≠ init_net ∧ true = false ∨
      (false && (sysctl_lookup boot 2 MPTCP_SYSCTL_PATH).isNone) = false) ∧
    ∃ s1, mptcp_pernet_new_table boot 2 2 true false = .ok (-ENOMEM, s1) ∧
      -ENOMEM ≠ 0 ∧
      s1.pernet = boot.pernet ∧
      (s1.pernet 2).ctl_table_hdr = (boot.pernet 2).ctl_table_hdr ∧
      s1.sysctl = boot.sysctl ∧
      entry_registered s1 2 = entry_registered boot 2 ∧
      (entry_registered boot 2 = false → sysctl_lookup s1 2 MPTCP_SYSCTL_PATH = none) ∧
      s1.heap = boot.heap ∧
      live_blocks s1 = live_blocks boot ∧
      ((2 : NetId) ≠ init_net → true = true →
        s1.trace = boot.trace ++
          [Op.kmemdup .static_template (.heap (fresh (boot.heap.map Prod.fst))),
           Op.register_net_sysctl 2 MPTCP_SYSCTL_PATH (.heap (fresh (boot.heap.map Prod.fst)))
             none,
           Op.kfree (.heap (fresh (boot.heap.map Prod.fst)))]) :=
  ⟨Or.inr rfl, publish_failure_rolls_back boot 2 2 true false (Or.inr rfl)⟩

/-- Counterexample to C4 as stated: with the allocation refused and with the
registration refused, publish for namespace 1 at boot returns the same value, -12. -/
theorem publish_errors_coincide :
    (mptcp_pernet_new_table boot 1 1 false true).toOption.map Prod.fst = some (-12) ∧
    (mptcp_pernet_new_table boot 1 1 true false).toOption.map Prod.fst = some (-12) :=
  ⟨rfl, rfl⟩

/-- C4 amended: for every namespace, a failing publish returns the same error value
-ENOMEM (non-zero) whether the copy could not be allocated or the registration failed,
so the return value tells failure from success but not the two failures apart. -/
theorem publish_error_is_ENOMEM (s : State) (net : NetId) (pernet : PernetPtr) (a r : Bool)
    (hfail : (net ≠ init_net ∧ a = false) ∨
             (r && (sysctl_lookup s net MPTCP_SYSCTL_PATH).isNone) = false) :
    (mptcp_pernet_new_table s net pernet a r).toOption.map Prod.fst = some (-ENOMEM) ∧
    -ENOMEM ≠ 0 := by
  refine ⟨?_, ENOMEM_ne_zero⟩
  rcases new_table_cases s net a r with ⟨hne, ha⟩ | ⟨hne, ha, hr⟩ | ⟨hne, ha, hr⟩ |
    ⟨he, hr⟩ | ⟨he, hr⟩
  · subst ha; rw [new_table_secondary_alloc_fail s net pernet r hne]; rfl
  · subst ha; rw [new_table_secondary_reg_fail s net pernet r hne hr]; rfl
  · rcases hfail with ⟨_, h⟩ | h
    · rw [ha] at h; exact absurd h (by decide)
    · rw [hr] at h; exact absurd h (by decide)
  · subst he; rw [new_table_default_reg_fail s pernet a r hr]; rfl
  · rcases hfail with ⟨h, _⟩ | h
    · exact absurd he h
    · rw [hr] at h; exact absurd h (by decide)

theorem publish_error_is_ENOMEM_witness :
    ((mptcp_pernet_new_table boot 3 3 false true).toOption.map Prod.fst = some (-ENOMEM) ∧
      -ENOMEM ≠ 0) ∧
    ((mptcp_pernet_new_table boot 3 3 true false).toOption.map Prod.fst = some (-ENOMEM) ∧
      -ENOMEM ≠ 0) :=
  ⟨publish_error_is_ENOMEM boot 3 3 false true (Or.inl ⟨by decide, rfl⟩),
   publish_error_is_ENOMEM boot 3 3 true false (Or.inr rfl)⟩

/-- Retire through a live header whose table is a live heap block. -/
theorem del_table_heap (s : State) (pernet : PernetPtr) (h : Nat) (H : ctl_table_header)
    (a : Nat) (hh : (s.pernet pernet).ctl_table_hdr = some h)
    (hH : header_at s h = some H) (ht : H.ctl_table_arg = .heap a)
    (hl : s.heap.any (fun b => b.1 == a) = true) :
    mptcp_pernet_del_table s pernet =
      .ok { s with sysctl := s.sysctl.filter (fun x => x.addr != h),
                   heap := s.heap.filter (fun b => b.1 != a),
                   trace := s.trace ++ [Op.unregister_net_sysctl_table h,
                                        Op.kfree (.heap a)] } := by
  unfold mptcp_pernet_del_table
  rw [hh]; simp only []
  rw [hH]; simp only []
  rw [ht]
  simp only [kfree, unregister_net_sysctl_table]
  rw [if_pos hl]
  simp

/-- Retire through a live header whose table is the static template faults. -/
theorem del_table_static (s : State) (pernet : PernetPtr) (h : Nat) (H : ctl_table_header)
    (hh : (s.pernet pernet).ctl_table_hdr = some h)
    (hH : header_at s h = some H) (ht : H.ctl_table_arg = .static_template) :
    mptcp_pernet_del_table s pernet = .error .free_of_static := by
  unfold mptcp_pernet_del_table
  rw [hh]; simp only []
  rw [hH]; simp only []
  rw [ht]
  rfl

/-- The memory after a creation hook that returned 0, field by field. -/
theorem net_init_zero_fields (s : State) (N : NetId) (a r : Bool) (s1 : State)
    (h : mptcp_net_init s N a r = .ok (0, s1)) :
    sysctl_lookup s N MPTCP_SYSCTL_PATH = none ∧
    (∀ m, m ≠ N → s1.pernet m = s.pernet m) ∧
    s1.pernet N = { ctl_table_hdr := some (fresh (s.sysctl.map ctl_table_header.addr)),
                    mptcp_enabled := 1 } ∧
    ∃ tbl,
      s1.sysctl = (⟨fresh (s.sysctl.map ctl_table_header.addr), N, MPTCP_SYSCTL_PATH, tbl⟩ :
        ctl_table_header) :: s.sysctl ∧
      ((N = init_net ∧ tbl = .static_template ∧
        s1.static_table = set_data0 s.static_table (.mptcp_enabled_of N) ∧
        s1.heap = s.heap ∧
        s1.trace = s.trace ++
          [Op.register_net_sysctl N MPTCP_SYSCTL_PATH .static_template
            (some (fresh (s.sysctl.map ctl_table_header.addr)))]) ∨
       (N ≠ init_net ∧ tbl = .heap (fresh (s.heap.map Prod.fst)) ∧
        s1.static_table = s.static_table ∧
        s1.heap = (fresh (s.heap.map Prod.fst),
                   set_data0 s.static_table (.mptcp_enabled_of N)) :: s.heap ∧
        s1.trace = s.trace ++
          [Op.kmemdup .static_template (.heap (fresh (s.heap.map Prod.fst))),
           Op.register_net_sysctl N MPTCP_SYSCTL_PATH (.heap (fresh (s.heap.map Prod.fst)))
             (some (fresh (s.sysctl.map ctl_table_header.addr)))])) := by
  rw [net_init_eq] at h
  obtain ⟨hnone, hp, tbl, hs, hcase⟩ := new_table_zero_fields _ _ _ _ _ _ h
  refine ⟨hnone, ?_, ?_, tbl, hs, hcase⟩
  · intro m hm
    rw [hp]
    simp [mptcp_get_pernet, mptcp_pernet_set_defaults, Function.update_noteq hm]
  · rw [hp]
    simp [mptcp_get_pernet, mptcp_pernet_set_defaults]

/-- The memory after a creation hook that returned an error, field by field. -/
theorem net_init_nonzero_fields (s : State) (N : NetId) (a r : Bool) (e : Int) (s1 : State)
    (h : mptcp_net_init s N a r = .ok (e, s1)) (he : e ≠ 0) :
    e = -ENOMEM ∧
    (∀ m, m ≠ N → s1.pernet m = s.pernet m) ∧
    s1.pernet N = { s.pernet N with mptcp_enabled := 1 } ∧
    s1.sysctl = s.sysctl ∧ s1.heap = s.heap ∧
    (N ≠ init_net → s1.static_table = s.static_table) ∧
    (N = init_net → s1.static_table = set_data0 s.static_table (.mptcp_enabled_of N)) ∧
    ∃ ops, s1.trace = s.trace ++ ops ∧ ∀ p, Op.kfree p ∈ ops → ∃ b, p = .heap b := by
  rw [net_init_eq] at h
  obtain ⟨h1, hp, hs, hh, hst1, hst2, htr⟩ := new_table_nonzero_fields _ _ _ _ _ _ _ h he
  refine ⟨h1, ?_, ?_, hs, hh, hst1, hst2, htr⟩
  · intro m hm
    rw [hp]
    simp [mptcp_get_pernet, mptcp_pernet_set_defaults, Function.update_noteq hm]
  · rw [hp]
    simp [mptcp_get_pernet, mptcp_pernet_set_defaults]

/-- The creation hook never faults and returns 0 or -ENOMEM. -/
theorem net_init_total (s : State) (N : NetId) (a r : Bool) :
    ∃ e s1, mptcp_net_init s N a r = .ok (e, s1) ∧ (e = 0 ∨ e = -ENOMEM) :=
  new_table_total _ _ _ _ _

/-- C6: for every secondary namespace N and every prior memory, when mptcp_net_init(N)
returns 0 the following mptcp_net_exit(N) completes without fault, leaves no entry
registered at N's path (a lookup and a write are not found), and puts the registry and
the live heap blocks back to what they were before the creation; the log shows the copy
made by kmemdup registered, then that header unregistered, then that same copy freed,
once. -/
theorem create_then_destroy_restores (s : State) (N : NetId) (a r : Bool) (s1 : State)
    (hne : N ≠ init_net) (h : mptcp_net_init s N a r = .ok (0, s1)) :
    ∃ s2, mptcp_net_exit s1 N = .ok s2 ∧
      sysctl_lookup s2 N MPTCP_SYSCTL_PATH = none ∧
      (∀ v, sysctl_write s2 N MPTCP_SYSCTL_PATH "enabled" v = none) ∧
      s2.sysctl = s.sysctl ∧
      s2.heap = s.heap ∧
      live_blocks s2 = live_blocks s ∧
      s2.static_table = s.static_table ∧
      s2.trace = s.trace ++
        [Op.kmemdup .static_template (.heap (fresh (s.heap.map Prod.fst))),
         Op.register_net_sysctl N MPTCP_SYSCTL_PATH (.heap (fresh (s.heap.map Prod.fst)))
           (some (fresh (s.sysctl.map ctl_table_header.addr))),
         Op.unregister_net_sysctl_table (fresh (s.sysctl.map ctl_table_header.addr)),
         Op.kfree (.heap (fresh (s.heap.map Prod.fst)))] := by
  obtain ⟨hnone, _, hp, tbl, hs, hcase⟩ := net_init_zero_fields _ _ _ _ _ h
  rcases hcase with ⟨he, _⟩ | ⟨_, ht, hst, hheap, htr⟩
  · exact absurd he hne
  subst ht
  have hdel := del_table_heap s1 (mptcp_get_pernet N)
    (fresh (s.sysctl.map ctl_table_header.addr))
    ⟨fresh (s.sysctl.map ctl_table_header.addr), N,
      MPTCP_SYSCTL_PATH, .heap (fresh (s.heap.map Prod.fst))⟩
    (fresh (s.heap.map Prod.fst))
    (by simp [mptcp_get_pernet, hp]) (by simp [header_at, hs]) rfl (by simp [hheap])
  have hsys : s1.sysctl.filter
      (fun x => x.addr != fresh (s.sysctl.map ctl_table_header.addr)) = s.sysctl := by
    rw [hs]; simp [sysctl_filter_fresh]
  have hhp : s1.heap.filter (fun b => b.1 != fresh (s.heap.map Prod.fst)) = s.heap := by
    rw [hheap]; simp [heap_filter_fresh]
  refine ⟨_, hdel, ?_, ?_, ?_, ?_, ?_, ?_, ?_⟩
  · simp only [sysctl_lookup, hsys]; exact hnone
  · intro v
    simp only [sysctl_write, sysctl_lookup, hsys]
    have : List.find? (fun h => h.net == N && h.path == MPTCP_SYSCTL_PATH) s.sysctl = none :=
      hnone
    rw [this]
  · exact hsys
  · exact hhp
  · simp only [live_blocks, hhp]
  · exact hst
  · simp [htr]

theorem create_then_destroy_restores_witness :
    ∃ s1, mptcp_net_init boot 1 true true = .ok (0, s1) ∧
    ∃ s2, mptcp_net_exit s1 1 = .ok s2 ∧
      sysctl_lookup s2 1 MPTCP_SYSCTL_PATH = none ∧
      (∀ v, sysctl_write s2 1 MPTCP_SYSCTL_PATH "enabled" v = none) ∧
      s2.sysctl = boot.sysctl ∧
      s2.heap = boot.heap ∧
      live_blocks s2 = live_blocks boot ∧
      s2.static_table = boot.static_table ∧
      s2.trace = boot.trace ++
        [Op.kmemdup .static_template (.heap (fresh (boot.heap.map Prod.fst))),
         Op.register_net_sysctl 1 MPTCP_SYSCTL_PATH (.heap (fresh (boot.heap.map Prod.fst)))
           (some (fresh (boot.sysctl.map ctl_table_header.addr))),
         Op.unregister_net_sysctl_table (fresh (boot.sysctl.map ctl_table_header.addr)),
         Op.kfree (.heap (fresh (boot.heap.map Prod.fst)))] :=
  ⟨_, rfl, create_then_destroy_restores boot 1 true true _ (by decide) rfl⟩

/-- C8: mptcp_init calls the two protocol set-up routines first and then
register_pernet_subsys exactly once, with the record holding the creation hook, the
destruction hook and the size of the per-namespace record; it ends in panic exactly
when that call returns a negative value, and returns normally otherwise. -/
theorem mptcp_init_panics_iff_registration_fails (reg : pernet_operations → Int) :
    (mptcp_init reg).2 =
      [BootCall.mptcp_join_cookie_init, BootCall.mptcp_proto_init,
       BootCall.register_pernet_subsys mptcp_pernet_ops (reg mptcp_pernet_ops)] ∧
    mptcp_pernet_ops.init = mptcp_net_init ∧
    mptcp_pernet_ops.exit = mptcp_net_exit ∧
    mptcp_pernet_ops.size = sizeof_mptcp_pernet ∧
    ((∃ msg, (mptcp_init reg).1 = .panicked msg) ↔ reg mptcp_pernet_ops < 0) ∧
    ((mptcp_init reg).1 = .returned ↔ ¬ reg mptcp_pernet_ops < 0) := by
  refine ⟨?_, rfl, rfl, rfl, ?_, ?_⟩
  · unfold mptcp_init
    by_cases h : reg mptcp_pernet_ops < 0 <;> simp [h]
  · unfold mptcp_init
    by_cases h : reg mptcp_pernet_ops < 0 <;> simp [h]
  · unfold mptcp_init
    by_cases h : reg mptcp_pernet_ops < 0 <;> simp [h]

/-! ## Theorems: sequences of notifications -/

theorem find_filter {α : Type} (p q : α → Bool) (l : List α) (x : α)
    (h : l.find? p = some x) (hq : q x = true) : (l.filter q).find? p = some x := by
  induction l with
  | nil => simp at h
  | cons y ys ih =>
    by_cases hp : p y = true
    · have hxy : y = x := by simpa [List.find?_cons, hp] using h
      subst hxy
      simp [List.filter_cons, hq, List.find?_cons, hp]
    · have hp2 : p y = false := by simpa using hp
      have h2 : ys.find? p = some x := by simpa [List.find?_cons, hp2] using h
      by_cases hqy : q y = true
      · simp [List.filter_cons, hqy, List.find?_cons, hp2, ih h2]
      · have hqy2 : q y = false := by simpa using hqy
        simp [List.filter_cons, hqy2, ih h2]

theorem header_at_mem (s : State) (h : Nat) (H : ctl_table_header)
    (hH : header_at s h = some H) : H ∈ s.sysctl ∧ H.addr = h := by
  unfold header_at at hH
  refine ⟨List.mem_of_find?_eq_some hH, ?_⟩
  have := List.find?_some hH
  simpa using this

/-- What a completed retire implies. -/
theorem del_table_ok_fields (s : State) (pernet : PernetPtr) (s1 : State)
    (h : mptcp_pernet_del_table s pernet = .ok s1) :
    ∃ hdr H, (s.pernet pernet).ctl_table_hdr = some hdr ∧ header_at s hdr = some H ∧
      H.ctl_table_arg ≠ .static_template ∧
      s1.pernet = s.pernet ∧ s1.static_table = s.static_table ∧
      s1.sysctl = s.sysctl.filter (fun x => x.addr != hdr) ∧
      s1.trace = s.trace ++ [Op.unregister_net_sysctl_table hdr, Op.kfree H.ctl_table_arg] ∧
      (H.ctl_table_arg = .null → s1.heap = s.heap) ∧
      (∀ a, H.ctl_table_arg = .heap a →
        s.heap.any (fun b => b.1 == a) = true ∧
        s1.heap = s.heap.filter (fun b => b.1 != a)) := by
  unfold mptcp_pernet_del_table at h
  cases hh : (s.pernet pernet).ctl_table_hdr with
  | none => rw [hh] at h; simp at h
  | some hdr =>
    rw [hh] at h; simp only [] at h
    cases hH : header_at s hdr with
    | none => rw [hH] at h; simp at h
    | some H =>
      rw [hH] at h; simp only [] at h
      refine ⟨hdr, H, rfl, hH, ?_⟩
      cases ht : H.ctl_table_arg with
      | null =>
        rw [ht] at h
        simp only [kfree, unregister_net_sysctl_table] at h
        injection h with h; subst h
        simp
      | static_template =>
        rw [ht] at h
        simp [kfree] at h
      | heap a =>
        rw [ht] at h
        simp only [kfree, unregister_net_sysctl_table] at h
        by_cases hl : s.heap.any (fun b => b.1 == a) = true
        · rw [if_pos hl] at h
          injection h with h; subst h
          exact ⟨by simp, rfl, rfl, rfl, by simp, by simp, fun b hb => by
            injection hb with hb; subst hb; exact ⟨hl, rfl⟩⟩
        · rw [if_neg hl] at h
          simp at h
/-- One notification for a secondary namespace leaves the default entry alone. -/
theorem default_entry_step (s : State) (live : List NetId) (e : Event) (s1 : State)
    (live1 : List NetId) (h0 : Nat) (hne : e.net ≠ init_net)
    (hstep : netns_step s live e = .ok (s1, live1))
    (hp : (s.pernet init_net).ctl_table_hdr = some h0)
    (hH : header_at s h0 = some ⟨h0, init_net, MPTCP_SYSCTL_PATH, .static_template⟩)
    (hL : sysctl_lookup s init_net MPTCP_SYSCTL_PATH =
      some ⟨h0, init_net, MPTCP_SYSCTL_PATH, .static_template⟩) :
    s1.static_table = s.static_table ∧ s1.pernet init_net = s.pernet init_net ∧
    header_at s1 h0 = some ⟨h0, init_net, MPTCP_SYSCTL_PATH, .static_template⟩ ∧
    sysctl_lookup s1 init_net MPTCP_SYSCTL_PATH =
      some ⟨h0, init_net, MPTCP_SYSCTL_PATH, .static_template⟩ := by
  have hmem := (header_at_mem s h0 _ hH).1
  cases e with
  | create n a r =>
    have hn : n ≠ init_net := hne
    obtain ⟨ret, s2, hinit, _⟩ := net_init_total s n a r
    simp only [netns_step, hinit] at hstep
    injection hstep with hstep; injection hstep with hs _; subst hs
    by_cases hret : ret = 0
    · subst hret
      obtain ⟨_, hpm, _, tbl, hsys, hcase⟩ := net_init_zero_fields _ _ _ _ _ hinit
      have hfr := fresh_gt (s.sysctl.map ctl_table_header.addr) h0
        (List.mem_map_of_mem ctl_table_header.addr hmem)
      have hfr2 : (fresh (s.sysctl.map ctl_table_header.addr) == h0) = false := by
        simp; omega
      refine ⟨?_, hpm init_net (Ne.symm hn), ?_, ?_⟩
      · rcases hcase with ⟨he, _⟩ | ⟨_, _, hst, _⟩
        · exact absurd he hn
        · exact hst
      · unfold header_at at hH ⊢
        rw [hsys, List.find?_cons]
        simp only [hfr2]
        exact hH
      · unfold sysctl_lookup at hL ⊢
        rw [hsys, List.find?_cons]
        have : (n == init_net) = false := by simpa using hn
        simp only [this, Bool.false_and]
        exact hL
    · obtain ⟨_, hpm, _, hsys, _, hst, _⟩ := net_init_nonzero_fields _ _ _ _ _ _ hinit hret
      refine ⟨hst hn, hpm init_net (Ne.symm hn), ?_, ?_⟩
      · unfold header_at at hH ⊢; rw [hsys]; exact hH
      · unfold sysctl_lookup at hL ⊢; rw [hsys]; exact hL
  | destroy n =>
    cases hex : mptcp_net_exit s n with
    | error f => simp [netns_step, hex] at hstep
    | ok s2 =>
      simp only [netns_step, hex] at hstep
      injection hstep with hstep; injection hstep with hs _; subst hs
      obtain ⟨hdr, H, _, hHd, hns, hpm, hst, hsys, _⟩ := del_table_ok_fields _ _ _ hex
      have hdiff : hdr ≠ h0 := by
        intro heq
        subst heq
        rw [hH] at hHd
        injection hHd with hHd
        subst hHd
        exact hns rfl
      have hq : (fun x : ctl_table_header => x.addr != hdr)
          ⟨h0, init_net, MPTCP_SYSCTL_PATH, .static_template⟩ = true := by
        simpa using Ne.symm hdiff
      refine ⟨hst, by rw [hpm], ?_, ?_⟩
      · unfold header_at at hH ⊢
        rw [hsys]
        exact find_filter _ _ _ _ hH hq
      · unfold sysctl_lookup at hL ⊢
        rw [hsys]
        exact find_filter _ _ _ _ hL hq

/-- A run of notifications for secondary namespaces leaves the default entry alone. -/
theorem default_entry_run (es : List Event) :
    ∀ (s : State) (live : List NetId) (s1 : State) (live1 : List NetId) (h0 : Nat),
    (∀ e ∈ es, e.net ≠ init_net) →
    netns_run s live es = .ok (s1, live1) →
    (s.pernet init_net).ctl_table_hdr = some h0 →
    header_at s h0 = some ⟨h0, init_net, MPTCP_SYSCTL_PATH, .static_template⟩ →
    sysctl_lookup s init_net MPTCP_SYSCTL_PATH =
      some ⟨h0, init_net, MPTCP_SYSCTL_PATH, .static_template⟩ →
    s1.static_table = s.static_table ∧ s1.pernet init_net = s.pernet init_net ∧
    header_at s1 h0 = some ⟨h0, init_net, MPTCP_SYSCTL_PATH, .static_template⟩ ∧
    sysctl_lookup s1 init_net MPTCP_SYSCTL_PATH =
      some ⟨h0, init_net, MPTCP_SYSCTL_PATH, .static_template⟩ := by
  induction es with
  | nil =>
    intro s live s1 live1 h0 _ hrun hp hH hL
    simp only [netns_run] at hrun
    injection hrun with hrun; injection hrun with hs _; subst hs
    exact ⟨rfl, rfl, hH, hL⟩
  | cons e es ih =>
    intro s live s1 live1 h0 hall hrun hp hH hL
    cases hstep : netns_step s live e with
    | error f => simp [netns_run, hstep] at hrun
    | ok p =>
      obtain ⟨s2, live2⟩ := p
      simp only [netns_run, hstep] at hrun
      obtain ⟨hst, hpm, hH2, hL2⟩ := default_entry_step s live e s2 live2 h0
        (hall e (List.mem_cons_self _ _)) hstep hp hH hL
      obtain ⟨hst3, hpm3, hH3, hL3⟩ := ih s2 live2 s1 live1 h0
        (fun x hx => hall x (List.mem_cons_of_mem _ hx)) hrun (by rw [hpm]; exact hp) hH2 hL2
      exact ⟨by rw [hst3, hst], by rw [hpm3, hpm], hH3, hL3⟩

/-- C7: once mptcp_net_init(init_net) has returned 0, every run of creation hooks
(succeeding or failing) and destruction hooks for secondary namespaces that reaches a
memory leaves the default namespace's entry as it was: the static template is unchanged
(its data slot still points at the default instance's flag), the default instance's
record (ctl_table_hdr included) is unchanged, and the header it names is still the one
registered for init_net at the path, with the static template as its table. -/
theorem default_entry_never_mutated (s0 : State) (a r : Bool) (s1 : State)
    (hinit : mptcp_net_init s0 init_net a r = .ok (0, s1))
    (es : List Event) (hes : ∀ e ∈ es, e.net ≠ init_net)
    (live : List NetId) (s2 : State) (live2 : List NetId)
    (hrun : netns_run s1 live es = .ok (s2, live2)) :
    s1.static_table = set_data0 s0.static_table (.mptcp_enabled_of init_net) ∧
    s2.static_table = s1.static_table ∧
    s2.pernet init_net = s1.pernet init_net ∧
    (s2.pernet init_net).ctl_table_hdr = (s1.pernet init_net).ctl_table_hdr ∧
    ∃ h0, (s1.pernet init_net).ctl_table_hdr = some h0 ∧
      sysctl_lookup s1 init_net MPTCP_SYSCTL_PATH =
        some ⟨h0, init_net, MPTCP_SYSCTL_PATH, .static_template⟩ ∧
      sysctl_lookup s2 init_net MPTCP_SYSCTL_PATH =
        some ⟨h0, init_net, MPTCP_SYSCTL_PATH, .static_template⟩ ∧
      header_at s2 h0 = some ⟨h0, init_net, MPTCP_SYSCTL_PATH, .static_template⟩ := by
  obtain ⟨_, _, hp, tbl, hsys, hcase⟩ := net_init_zero_fields _ _ _ _ _ hinit
  rcases hcase with ⟨_, ht, hst, _, _⟩ | ⟨hne, _⟩
  · subst ht
    have hp1 : (s1.pernet init_net).ctl_table_hdr =
        some (fresh (s0.sysctl.map ctl_table_header.addr)) := by rw [hp]
    have hH1 : header_at s1 (fresh (s0.sysctl.map ctl_table_header.addr)) =
        some ⟨fresh (s0.sysctl.map ctl_table_header.addr), init_net, MPTCP_SYSCTL_PATH,
          .static_template⟩ := by
      simp [header_at, hsys]
    have hL1 : sysctl_lookup s1 init_net MPTCP_SYSCTL_PATH =
        some ⟨fresh (s0.sysctl.map ctl_table_header.addr), init_net, MPTCP_SYSCTL_PATH,
          .static_template⟩ := by
      simp [sysctl_lookup, hsys]
    obtain ⟨hst2, hpm2, hH2, hL2⟩ := default_entry_run es s1 live s2 live2 _ hes hrun hp1 hH1 hL1
    exact ⟨hst, hst2, hpm2, by rw [hpm2], _, hp1, hL1, hL2, hH2⟩
  · exact absurd rfl hne

theorem default_entry_never_mutated_witness :
    ∃ s1 s2 live2,
      mptcp_net_init boot init_net true true = .ok (0, s1) ∧
      netns_run s1 [init_net]
        [.create 1 true true, .create 2 true false, .create 3 false true, .destroy 1,
         .create 4 true true] = .ok (s2, live2) ∧
      live2 = [4, init_net] ∧
      (s1.static_table = set_data0 boot.static_table (.mptcp_enabled_of init_net) ∧
       s2.static_table = s1.static_table ∧
       s2.pernet init_net = s1.pernet init_net ∧
       (s2.pernet init_net).ctl_table_hdr = (s1.pernet init_net).ctl_table_hdr ∧
       ∃ h0, (s1.pernet init_net).ctl_table_hdr = some h0 ∧
        sysctl_lookup s1 init_net MPTCP_SYSCTL_PATH =
          some ⟨h0, init_net, MPTCP_SYSCTL_PATH, .static_template⟩ ∧
        sysctl_lookup s2 init_net MPTCP_SYSCTL_PATH =
          some ⟨h0, init_net, MPTCP_SYSCTL_PATH, .static_template⟩ ∧
        header_at s2 h0 = some ⟨h0, init_net, MPTCP_SYSCTL_PATH, .static_template⟩) :=
  ⟨_, _, _, rfl, rfl, rfl,
   default_entry_never_mutated boot true true _ rfl
     [.create 1 true true, .create 2 true false, .create 3 false true, .destroy 1,
      .create 4 true true] (by decide) [init_net] _ _ rfl⟩

theorem sysctl_lookup_net (s : State) (n : NetId) (H : ctl_table_header)
    (h : sysctl_lookup s n MPTCP_SYSCTL_PATH = some H) :
    H ∈ s.sysctl ∧ H.net = n ∧ H.path = MPTCP_SYSCTL_PATH := by
  unfold sysctl_lookup at h
  refine ⟨List.mem_of_find?_eq_some h, ?_⟩
  have := List.find?_some h
  simpa using this

theorem table_at_heap_mem (s : State) (a : Nat) (t : List ctl_table)
    (h : table_at s (.heap a) = some t) :
    s.heap.find? (fun b => b.1 == a) = some (a, t) ∧ a ∈ s.heap.map Prod.fst ∧
    s.heap.any (fun b => b.1 == a) = true := by
  simp only [table_at, Option.map_eq_some'] at h
  obtain ⟨b, hb, ht⟩ := h
  have h1 := List.find?_some hb
  have h2 := List.mem_of_find?_eq_some hb
  have hb1 : b.1 = a := by simpa using h1
  have hbe : b = (a, t) := by
    cases b; simp only at hb1 ht; subst hb1; subst ht; rfl
  subst hbe
  refine ⟨hb, List.mem_map_of_mem Prod.fst h2, ?_⟩
  rw [List.any_eq_true]
  exact ⟨(a, t), h2, by simp⟩

theorem set_data0_same (e : ctl_table) (rest : List ctl_table) :
    set_data0 (e :: rest) e.data = e :: rest := rfl

/-- A published namespace stays published when its record's handle, its registry
entries, its table and the log are kept. -/
theorem published_frame (s s1 : State) (m : NetId) (hP : Published s m)
    (h1 : (s1.pernet (mptcp_get_pernet m)).ctl_table_hdr =
          (s.pernet (mptcp_get_pernet m)).ctl_table_hdr)
    (h2 : ∀ H, sysctl_lookup s m MPTCP_SYSCTL_PATH = some H →
          sysctl_lookup s1 m MPTCP_SYSCTL_PATH = some H)
    (h3 : ∀ H, sysctl_lookup s m MPTCP_SYSCTL_PATH = some H → header_at s H.addr = some H →
          header_at s1 H.addr = some H)
    (h4 : ∀ H e rest, sysctl_lookup s m MPTCP_SYSCTL_PATH = some H →
          table_at s H.ctl_table_arg = some (e :: rest) →
          e.data = .mptcp_enabled_of (mptcp_get_pernet m) →
          ((m = init_net ∧ H.ctl_table_arg = .static_template) ∨
           (m ≠ init_net ∧ ∃ a, H.ctl_table_arg = .heap a)) →
          table_at s1 H.ctl_table_arg = some (e :: rest))
    (h5 : ∀ o ∈ s.trace, o ∈ s1.trace) : Published s1 m := by
  obtain ⟨H, e, rest, hL, hp, hH, ht, hn, hh, hd, hk⟩ := hP
  refine ⟨H, e, rest, h2 H hL, by rw [h1]; exact hp, h3 H hL hH, ?_, hn, hh, hd, ?_⟩
  · apply h4 H e rest hL ht hd
    rcases hk with hk | ⟨hne, a, ha, _⟩
    · exact Or.inl hk
    · exact Or.inr ⟨hne, a, ha⟩
  · rcases hk with hk | ⟨hne, a, ha, hk1, hk2⟩
    · exact Or.inl hk
    · exact Or.inr ⟨hne, a, ha, h5 _ hk1, h5 _ hk2⟩
/-- The invariant survives a creation hook that returns 0, with the namespace added
to the live ones. -/
theorem inv_create_ok (s : State) (live : List NetId) (n : NetId) (a r : Bool) (s1 : State)
    (hinv : Inv s live) (hinit : mptcp_net_init s n a r = .ok (0, s1)) :
    Inv s1 (n :: live) := by
  obtain ⟨⟨e0, rest0, hshape, hname0, hhand0⟩, hfree, hpub⟩ := hinv
  obtain ⟨hnone, hpm, hpn, tbl, hsys, hcase⟩ := net_init_zero_fields _ _ _ _ _ hinit
  have htrace : ∀ o ∈ s.trace, o ∈ s1.trace := by
    intro o ho
    rcases hcase with ⟨_, _, _, _, htr⟩ | ⟨_, _, _, _, htr⟩ <;>
      (rw [htr]; exact List.mem_append_left _ ho)
  refine ⟨?_, ?_, ?_⟩
  · rcases hcase with ⟨_, _, hst, _, _⟩ | ⟨_, _, hst, _, _⟩
    · rw [hst, hshape]; exact ⟨_, _, rfl, hname0, hhand0⟩
    · rw [hst, hshape]; exact ⟨_, _, rfl, hname0, hhand0⟩
  · intro p hp
    rcases hcase with ⟨_, _, _, _, htr⟩ | ⟨_, _, _, _, htr⟩
    · rw [htr] at hp
      rcases List.mem_append.mp hp with hp | hp
      · exact hfree p hp
      · simp at hp
    · rw [htr] at hp
      rcases List.mem_append.mp hp with hp | hp
      · exact hfree p hp
      · simp at hp
  · intro m hm
    rcases List.mem_cons.mp hm with hmn | hml
    · subst hmn
      -- the namespace just created
      have hL : sysctl_lookup s1 m MPTCP_SYSCTL_PATH =
          some ⟨fresh (s.sysctl.map ctl_table_header.addr), m, MPTCP_SYSCTL_PATH, tbl⟩ := by
        simp [sysctl_lookup, hsys]
      have hH : header_at s1 (fresh (s.sysctl.map ctl_table_header.addr)) =
          some ⟨fresh (s.sysctl.map ctl_table_header.addr), m, MPTCP_SYSCTL_PATH, tbl⟩ := by
        simp [header_at, hsys]
      refine ⟨_, { e0 with data := .mptcp_enabled_of m }, rest0, hL, ?_, hH, ?_,
        hname0, hhand0, rfl, ?_⟩
      · simp [mptcp_get_pernet, hpn]
      · rcases hcase with ⟨_, ht, hst, _, _⟩ | ⟨_, ht, _, hheap, _⟩
        · subst ht
          simp only [table_at, hst, hshape]; rfl
        · subst ht
          simp only [table_at, hheap, hshape]
          simp [set_data0]
      · rcases hcase with ⟨he, ht, _, _, _⟩ | ⟨hne, ht, _, _, htr⟩
        · exact Or.inl ⟨he, ht⟩
        · refine Or.inr ⟨hne, _, ht, ?_, ?_⟩
          · rw [htr]; simp
          · rw [htr]; simp
    · -- a namespace that was live before
      have hPm := hpub m hml
      have hmn : m ≠ n := by
        intro h; subst h
        obtain ⟨H, _, _, hL, _⟩ := hPm
        rw [hnone] at hL; exact absurd hL (by simp)
      apply published_frame s s1 m hPm
      · rw [mptcp_get_pernet, hpm m hmn]
      · intro H hL
        unfold sysctl_lookup at hL ⊢
        rw [hsys, List.find?_cons]
        have : (n == m) = false := by simpa using Ne.symm hmn
        simp only [this, Bool.false_and]
        exact hL
      · intro H hL hH
        have hmem := (sysctl_lookup_net s m H hL).1
        have hfr := fresh_gt (s.sysctl.map ctl_table_header.addr) H.addr
          (List.mem_map_of_mem ctl_table_header.addr hmem)
        have hfr2 : (fresh (s.sysctl.map ctl_table_header.addr) == H.addr) = false := by
          simp; omega
        unfold header_at at hH ⊢
        rw [hsys, List.find?_cons]
        simp only [hfr2]
        exact hH
      · intro H e rest hL ht hd hk
        rcases hk with ⟨hmi, hst⟩ | ⟨hmi, b, hb⟩
        · -- m is init_net, so n is secondary and the template is untouched
          rcases hcase with ⟨he, _⟩ | ⟨_, _, hst1, _, _⟩
          · exact absurd (hmi.trans he.symm) hmn
          · rw [hst] at ht ⊢
            simp only [table_at] at ht ⊢
            rw [hst1]; exact ht
        · rw [hb] at ht ⊢
          obtain ⟨hfind, hmem, _⟩ := table_at_heap_mem s b _ ht
          rcases hcase with ⟨_, _, _, hheap, _⟩ | ⟨_, _, _, hheap, _⟩
          · simp only [table_at, hheap, hfind]; rfl
          · have hfr := fresh_gt (s.heap.map Prod.fst) b hmem
            have hfr2 : (fresh (s.heap.map Prod.fst) == b) = false := by simp; omega
            simp only [table_at, hheap, List.find?_cons, hfr2, hfind]; rfl
      · exact htrace

/-- The invariant survives a creation hook that returns an error. -/
theorem inv_create_fail (s : State) (live : List NetId) (n : NetId) (a r : Bool) (e : Int)
    (s1 : State) (hinv : Inv s live) (hinit : mptcp_net_init s n a r = .ok (e, s1))
    (he : e ≠ 0) : Inv s1 live := by
  obtain ⟨⟨e0, rest0, hshape, hname0, hhand0⟩, hfree, hpub⟩ := hinv
  obtain ⟨_, hpm, hpn, hsys, hheap, hst1, hst2, ops, htr, hops⟩ :=
    net_init_nonzero_fields _ _ _ _ _ _ hinit he
  refine ⟨?_, ?_, ?_⟩
  · by_cases hn : n = init_net
    · rw [hst2 hn, hshape]; exact ⟨_, _, rfl, hname0, hhand0⟩
    · rw [hst1 hn, hshape]; exact ⟨_, _, rfl, hname0, hhand0⟩
  · intro p hp
    rw [htr] at hp
    rcases List.mem_append.mp hp with hp | hp
    · exact hfree p hp
    · exact hops p hp
  · intro m hml
    apply published_frame s s1 m (hpub m hml)
    · by_cases hmn : m = n
      · subst hmn; rw [mptcp_get_pernet, hpn]
      · rw [mptcp_get_pernet, hpm m hmn]
    · intro H hL
      unfold sysctl_lookup at hL ⊢; rw [hsys]; exact hL
    · intro H _ hH
      unfold header_at at hH ⊢; rw [hsys]; exact hH
    · intro H e1 rest hL ht hd hk
      rcases hk with ⟨hmi, hst⟩ | ⟨hmi, b, hb⟩
      · rw [hst] at ht ⊢
        simp only [table_at] at ht ⊢
        by_cases hn : n = init_net
        · rw [hst2 hn]
          injection ht with ht
          rw [ht, hn, ← hmi]
          have : DataPtr.mptcp_enabled_of m = e1.data := hd.symm
          rw [this]; rfl
        · rw [hst1 hn]; exact ht
      · rw [hb] at ht ⊢
        simp only [table_at] at ht ⊢
        rw [hheap]; exact ht
    · intro o ho; rw [htr]; exact List.mem_append_left _ ho

/-- Under the invariant, the destruction hook for a live secondary namespace completes:
it unregisters the header the record names and frees that header's table, a live heap
block bound to the namespace; the invariant holds for the remaining namespaces. -/
theorem inv_destroy (s : State) (live : List NetId) (n : NetId)
    (hinv : Inv s live) (hn : n ≠ init_net) (hl : n ∈ live) :
    ∃ s1 hdr blk e rest, mptcp_net_exit s n = .ok s1 ∧
      Inv s1 (live.filter (fun m => m != n)) ∧
      (s.pernet (mptcp_get_pernet n)).ctl_table_hdr = some hdr ∧
      header_at s hdr = some ⟨hdr, n, MPTCP_SYSCTL_PATH, .heap blk⟩ ∧
      table_at s (.heap blk) = some (e :: rest) ∧
      e.data = .mptcp_enabled_of (mptcp_get_pernet n) ∧
      Op.kmemdup .static_template (.heap blk) ∈ s.trace ∧
      Op.register_net_sysctl n MPTCP_SYSCTL_PATH (.heap blk) (some hdr) ∈ s.trace ∧
      s1.trace = s.trace ++ [Op.unregister_net_sysctl_table hdr, Op.kfree (.heap blk)] ∧
      s1.heap = s.heap.filter (fun b => b.1 != blk) ∧
      s1.sysctl = s.sysctl.filter (fun x => x.addr != hdr) ∧
      s1.static_table = s.static_table ∧ s1.pernet = s.pernet := by
  obtain ⟨hshape, hfree, hpub⟩ := hinv
  obtain ⟨H, e, rest, hL, hp, hH, ht, hname, hhand, hd, hk⟩ := hpub n hl
  rcases hk with ⟨he, _⟩ | ⟨_, blk, hblk, hk1, hk2⟩
  · exact absurd he hn
  obtain ⟨hHmem, hHnet, hHpath⟩ := sysctl_lookup_net s n H hL
  have hHeq : H = ⟨H.addr, n, MPTCP_SYSCTL_PATH, .heap blk⟩ := by
    cases H; simp only at hHnet hHpath hblk; subst hHnet; subst hHpath; subst hblk; rfl
  rw [hblk] at ht
  obtain ⟨hfind, hbmem, hany⟩ := table_at_heap_mem s blk _ ht
  have hdel := del_table_heap s (mptcp_get_pernet n) H.addr H blk hp hH hblk hany
  refine ⟨_, H.addr, blk, e, rest, hdel, ?_, hp, by rw [← hHeq]; exact hH, ht, hd,
    hk1, by simpa using hk2, rfl, rfl, rfl, rfl, rfl⟩
  refine ⟨hshape, ?_, ?_⟩
  · intro p hp1
    simp only [List.mem_append] at hp1
    rcases hp1 with hp1 | hp1
    · exact hfree p hp1
    · simp at hp1
      exact ⟨blk, hp1⟩
  · intro m hm
    have hml : m ∈ live := (List.mem_filter.mp hm).1
    have hmn : m ≠ n := by simpa using (List.mem_filter.mp hm).2
    have hPm := hpub m hml
    apply published_frame s _ m hPm
    · rfl
    · intro Hm hLm
      obtain ⟨Hm2, _, _, hLm2, _, hHm2, _⟩ := hPm
      rw [hLm] at hLm2; injection hLm2 with hLm2; subst hLm2
      have hq : (fun x : ctl_table_header => x.addr != H.addr) Hm = true := by
        simp only [bne_iff_ne, ne_eq]
        intro heq
        rw [heq, hH] at hHm2
        injection hHm2 with hHm2
        have := (sysctl_lookup_net s m Hm hLm).2.1
        rw [← hHm2, hHnet] at this
        exact hmn this.symm
      exact find_filter _ _ _ _ hLm hq
    · intro Hm hLm hHm
      have hq : (fun x : ctl_table_header => x.addr != H.addr) Hm = true := by
        simp only [bne_iff_ne, ne_eq]
        intro heq
        rw [heq, hH] at hHm
        injection hHm with hHm
        have := (sysctl_lookup_net s m Hm hLm).2.1
        rw [← hHm, hHnet] at this
        exact hmn this.symm
      exact find_filter _ _ _ _ hHm hq
    · intro Hm em restm hLm htm hdm hkm
      rcases hkm with ⟨_, hst⟩ | ⟨_, b, hb⟩
      · rw [hst] at htm ⊢; exact htm
      · rw [hb] at htm ⊢
        obtain ⟨hfindm, _, _⟩ := table_at_heap_mem s b _ htm
        have hq : (fun x : Nat × List ctl_table => x.1 != blk) (b, em :: restm) = true := by
          simp only [bne_iff_ne, ne_eq]
          intro heq
          subst heq
          rw [ht] at htm
          injection htm with htm
          injection htm with htm _
          rw [htm] at hd
          rw [hd] at hdm
          injection hdm with hdm
          exact hmn hdm.symm
        simp only [table_at]
        rw [find_filter _ _ _ _ hfindm hq]; rfl
    · intro o ho; exact List.mem_append_left _ ho

/-- Along an admissible sequence of notifications no hook faults and the invariant is
kept. -/
theorem inv_run (es : List Event) :
    ∀ (s : State) (live : List NetId), Inv s live → admissible s live es = true →
    ∃ s1 live1, netns_run s live es = .ok (s1, live1) ∧ Inv s1 live1 := by
  induction es with
  | nil => intro s live hinv _; exact ⟨s, live, rfl, hinv⟩
  | cons e es ih =>
    intro s live hinv hadm
    cases e with
    | create n a r =>
      obtain ⟨ret, s2, hinit, _⟩ := net_init_total s n a r
      have hstep : netns_step s live (.create n a r) =
          .ok (s2, if ret = 0 then n :: live else live) := by
        simp only [netns_step, hinit]
      have hinv2 : Inv s2 (if ret = 0 then n :: live else live) := by
        by_cases hret : ret = 0
        · subst hret; simpa using inv_create_ok s live n a r s2 hinv hinit
        · simpa [hret] using inv_create_fail s live n a r ret s2 hinv hinit hret
      simp only [admissible, hstep, Bool.true_and] at hadm
      obtain ⟨s1, live1, hrun, hinv1⟩ := ih s2 _ hinv2 hadm
      exact ⟨s1, live1, by simp only [netns_run, hstep]; exact hrun, hinv1⟩
    | destroy n =>
      simp only [admissible, Bool.and_eq_true] at hadm
      obtain ⟨hpre, hrest⟩ := hadm
      have hn : n ≠ init_net := by
        have := hpre.1
        simpa [net_eq] using this
      have hl : n ∈ live := by
        have := hpre.2
        simpa using this
      obtain ⟨s2, _, _, _, _, hexit, hinv2, _⟩ := inv_destroy s live n hinv hn hl
      have hstep : netns_step s live (.destroy n) =
          .ok (s2, live.filter (fun m => m != n)) := by
        simp only [netns_step, hexit]
      simp only [hstep] at hrest
      obtain ⟨s1, live1, hrun, hinv1⟩ := ih s2 _ hinv2 hrest
      exact ⟨s1, live1, by simp only [netns_run, hstep]; exact hrun, hinv1⟩

theorem inv_boot : Inv boot [] := by
  refine ⟨⟨_, _, rfl, rfl, rfl⟩, ?_, ?_⟩
  · intro p hp; simp [boot] at hp
  · intro n hn; simp at hn

theorem fresh_not_mem (l : List Nat) : fresh l ∉ l := by
  intro h
  have := fresh_gt l _ h
  omega

theorem balanced_new_table (s : State) (net : NetId) (pernet : PernetPtr) (a r : Bool)
    (e : Int) (s1 : State) (hb : Balanced s)
    (h : mptcp_pernet_new_table s net pernet a r = .ok (e, s1)) : Balanced s1 := by
  have hfr := fresh_not_mem (s.heap.map Prod.fst)
  rcases new_table_cases s net a r with ⟨hne, ha⟩ | ⟨hne, ha, hr⟩ | ⟨hne, ha, hr⟩ |
    ⟨he, hr⟩ | ⟨he, hr⟩
  · subst ha
    rw [new_table_secondary_alloc_fail s net pernet r hne] at h
    injection h with h; injection h with _ h; subst h
    intro x
    have := hb x
    simpa [allocs_of, frees_of, live_blocks, List.countP_append] using this
  · subst ha
    rw [new_table_secondary_reg_fail s net pernet r hne hr] at h
    injection h with h; injection h with _ h; subst h
    intro x
    have := hb x
    simp only [allocs_of, frees_of, live_blocks] at this ⊢
    simp only [List.countP_append, List.countP_cons, List.countP_nil]
    by_cases hx : fresh (s.heap.map Prod.fst) = x
    · simp [hx]; omega
    · simp [hx]; omega
  · subst ha
    rw [new_table_secondary_ok s net pernet r hne hr] at h
    injection h with h; injection h with _ h; subst h
    intro x
    have := hb x
    simp only [allocs_of, frees_of, live_blocks] at this ⊢
    simp only [List.countP_append, List.countP_cons, List.countP_nil, List.map_cons,
      List.mem_cons]
    by_cases hx : x = fresh (s.heap.map Prod.fst)
    · subst hx
      simp only [hfr, if_false] at this
      simp; omega
    · have hx2 : ¬ fresh (s.heap.map Prod.fst) = x := fun h => hx h.symm
      by_cases hm : x ∈ s.heap.map Prod.fst
      · simp only [hm, if_true] at this
        simp only [hm, or_true, if_true]
        simp [hx2]; omega
      · simp only [hm, if_false] at this
        simp only [hm, hx, or_self, if_false]
        simp [hx2]; omega
  · subst he
    rw [new_table_default_reg_fail s pernet a r hr] at h
    injection h with h; injection h with _ h; subst h
    intro x
    have := hb x
    simpa [allocs_of, frees_of, live_blocks, List.countP_append] using this
  · subst he
    rw [new_table_default_ok s pernet a r hr] at h
    injection h with h; injection h with _ h; subst h
    intro x
    have := hb x
    simpa [allocs_of, frees_of, live_blocks, List.countP_append] using this

theorem balanced_del_table (s : State) (pernet : PernetPtr) (s1 : State) (hb : Balanced s)
    (h : mptcp_pernet_del_table s pernet = .ok s1) : Balanced s1 := by
  obtain ⟨hdr, H, _, _, hns, _, _, _, htr, hnull, hheap⟩ := del_table_ok_fields _ _ _ h
  intro x
  have hx := hb x
  simp only [allocs_of, frees_of, live_blocks] at hx ⊢
  cases ht : H.ctl_table_arg with
  | null =>
    simp only [htr, ht, hnull ht, List.countP_append, List.countP_cons, List.countP_nil]
    simp; omega
  | static_template => exact absurd ht hns
  | heap blk =>
    obtain ⟨hany, hflt⟩ := hheap blk ht
    simp only [htr, ht, hflt, List.countP_append, List.countP_cons, List.countP_nil]
    have hmem : blk ∈ s.heap.map Prod.fst := by
      rw [List.any_eq_true] at hany
      obtain ⟨b, hb1, hb2⟩ := hany
      have : b.1 = blk := by simpa using hb2
      rw [← this]; exact List.mem_map_of_mem Prod.fst hb1
    by_cases hxb : x = blk
    · subst hxb
      have hnot : x ∉ (s.heap.filter (fun b => b.1 != x)).map Prod.fst := by
        intro hin
        obtain ⟨b, hb1, hb2⟩ := List.mem_map.mp hin
        have := (List.mem_filter.mp hb1).2
        simp at this
        exact this hb2
      simp only [hmem, if_true] at hx
      simp only [hnot, if_false]
      simp; omega
    · have hiff : x ∈ (s.heap.filter (fun b => b.1 != blk)).map Prod.fst ↔
          x ∈ s.heap.map Prod.fst := by
        constructor
        · intro hin
          obtain ⟨b, hb1, hb2⟩ := List.mem_map.mp hin
          rw [← hb2]; exact List.mem_map_of_mem Prod.fst (List.mem_filter.mp hb1).1
        · intro hin
          obtain ⟨b, hb1, hb2⟩ := List.mem_map.mp hin
          rw [← hb2]
          apply List.mem_map_of_mem Prod.fst
          apply List.mem_filter.mpr
          refine ⟨hb1, ?_⟩
          simp only [bne_iff_ne, ne_eq]
          rw [hb2]; exact hxb
      have hxb2 : ¬ blk = x := fun h => hxb h.symm
      by_cases hm : x ∈ s.heap.map Prod.fst
      · have hm2 := hiff.mpr hm
        simp only [hm, if_true] at hx
        simp only [hm2, if_true]
        simp [hxb2]; omega
      · have hm2 : x ∉ (s.heap.filter (fun b => b.1 != blk)).map Prod.fst :=
          fun h => hm (hiff.mp h)
        simp only [hm, if_false] at hx
        simp only [hm2, if_false]
        simp [hxb2]; omega

/-- Every run of notifications that reaches a memory keeps the log and the heap in
agreement. -/
theorem balanced_run (es : List Event) :
    ∀ (s : State) (live : List NetId) (s1 : State) (live1 : List NetId),
    Balanced s → netns_run s live es = .ok (s1, live1) → Balanced s1 := by
  induction es with
  | nil =>
    intro s live s1 live1 hb hrun
    simp only [netns_run] at hrun
    injection hrun with hrun; injection hrun with hs _; subst hs
    exact hb
  | cons e es ih =>
    intro s live s1 live1 hb hrun
    cases hstep : netns_step s live e with
    | error f => simp [netns_run, hstep] at hrun
    | ok p =>
      obtain ⟨s2, live2⟩ := p
      simp only [netns_run, hstep] at hrun
      refine ih s2 live2 s1 live1 ?_ hrun
      cases e with
      | create n a r =>
        obtain ⟨ret, s3, hinit, _⟩ := net_init_total s n a r
        simp only [netns_step, hinit] at hstep
        injection hstep with hstep; injection hstep with hs _; subst hs
        rw [net_init_eq] at hinit
        have hb2 : Balanced (mptcp_pernet_set_defaults s (mptcp_get_pernet n)) := hb
        exact balanced_new_table _ _ _ _ _ _ _ hb2 hinit
      | destroy n =>
        cases hex : mptcp_net_exit s n with
        | error f => simp [netns_step, hex] at hstep
        | ok s3 =>
          simp only [netns_step, hex] at hstep
          injection hstep with hstep; injection hstep with hs _; subst hs
          exact balanced_del_table _ _ _ hb hex

theorem balanced_boot : Balanced boot := by
  intro a; simp [allocs_of, frees_of, live_blocks, boot]

/-- C10: along every sequence of notifications from boot in which the destruction hook
is called only for a namespace other than init_net whose creation hook returned 0 and
that has not been destroyed since, no hook faults (kfree faults on the static template
and on a block that is not live), and in the memory reached: every kfree in the log was
on a heap block; every address has been freed exactly as often as kmemdup returned it,
less once while it is live (nothing is freed twice); and the destruction hook of any
live secondary namespace n frees exactly the block named by the header in n's record,
which is live, holds a table bound to n's flag, and is in the log as returned by
kmemdup and registered for n, and is no longer live afterwards while the static
template is untouched.  Every destruction in such a sequence is of this kind, being
run in the memory reached by the notifications before it.  Without the precondition:
the destruction hook on init_net, once created, faults with a kfree of the static
template. -/
theorem retire_frees_only_live_private_copy (es : List Event)
    (hadm : admissible boot [] es = true) :
    ∃ s live, netns_run boot [] es = .ok (s, live) ∧
      (∀ p, Op.kfree p ∈ s.trace → ∃ a, p = .heap a) ∧
      (∀ a, allocs_of a s.trace =
        frees_of a s.trace + (if a ∈ live_blocks s then 1 else 0)) ∧
      (∀ n ∈ live, n ≠ init_net →
        ∃ s1 hdr blk e rest, mptcp_net_exit s n = .ok s1 ∧
          (s.pernet (mptcp_get_pernet n)).ctl_table_hdr = some hdr ∧
          header_at s hdr = some ⟨hdr, n, MPTCP_SYSCTL_PATH, .heap blk⟩ ∧
          table_at s (.heap blk) = some (e :: rest) ∧
          e.data = .mptcp_enabled_of (mptcp_get_pernet n) ∧
          Op.kmemdup .static_template (.heap blk) ∈ s.trace ∧
          Op.register_net_sysctl n MPTCP_SYSCTL_PATH (.heap blk) (some hdr) ∈ s.trace ∧
          s1.trace = s.trace ++ [Op.unregister_net_sysctl_table hdr, Op.kfree (.heap blk)] ∧
          blk ∈ live_blocks s ∧ blk ∉ live_blocks s1 ∧
          s1.static_table = s.static_table) ∧
      (init_net ∈ live → mptcp_net_exit s init_net = .error .free_of_static) := by
  obtain ⟨s, live, hrun, hinv⟩ := inv_run es boot [] inv_boot hadm
  have hbal := balanced_run es boot [] s live balanced_boot hrun
  refine ⟨s, live, hrun, hinv.2.1, hbal, ?_, ?_⟩
  · intro n hl hn
    obtain ⟨s1, hdr, blk, e, rest, hexit, _, hp, hH, ht, hd, hk1, hk2, htr, hheap, _, hst, _⟩ :=
      inv_destroy s live n hinv hn hl
    refine ⟨s1, hdr, blk, e, rest, hexit, hp, hH, ht, hd, hk1, hk2, htr,
      (table_at_heap_mem s blk _ ht).2.1, ?_, hst⟩
    intro hin
    simp only [live_blocks, hheap] at hin
    obtain ⟨b, hb1, hb2⟩ := List.mem_map.mp hin
    have := (List.mem_filter.mp hb1).2
    simp at this
    exact this hb2
  · intro hl
    obtain ⟨H, _, _, _, hp, hH, _, _, _, _, hk⟩ := hinv.2.2 init_net hl
    rcases hk with ⟨_, hst⟩ | ⟨hne, _⟩
    · exact del_table_static s (mptcp_get_pernet init_net) H.addr H hp hH hst
    · exact absurd rfl hne

theorem retire_frees_only_live_private_copy_witness :
    admissible boot []
      [.create init_net true true, .create 1 true true, .create 2 true false,
       .destroy 1, .create 3 true true] = true ∧
    (netns_run boot []
      [.create init_net true true, .create 1 true true, .create 2 true false,
       .destroy 1, .create 3 true true]).toOption.map Prod.snd = some [3, init_net] ∧
    ∃ s live, netns_run boot []
      [.create init_net true true, .create 1 true true, .create 2 true false,
       .destroy 1, .create 3 true true] = .ok (s, live) ∧
      (∀ p, Op.kfree p ∈ s.trace → ∃ a, p = .heap a) ∧
      (∀ a, allocs_of a s.trace =
        frees_of a s.trace + (if a ∈ live_blocks s then 1 else 0)) ∧
      (∀ n ∈ live, n ≠ init_net →
        ∃ s1 hdr blk e rest, mptcp_net_exit s n = .ok s1 ∧
          (s.pernet (mptcp_get_pernet n)).ctl_table_hdr = some hdr ∧
          header_at s hdr = some ⟨hdr, n, MPTCP_SYSCTL_PATH, .heap blk⟩ ∧
          table_at s (.heap blk) = some (e :: rest) ∧
          e.data = .mptcp_enabled_of (mptcp_get_pernet n) ∧
          Op.kmemdup .static_template (.heap blk) ∈ s.trace ∧
          Op.register_net_sysctl n MPTCP_SYSCTL_PATH (.heap blk) (some hdr) ∈ s.trace ∧
          s1.trace = s.trace ++ [Op.unregister_net_sysctl_table hdr, Op.kfree (.heap blk)] ∧
          blk ∈ live_blocks s ∧ blk ∉ live_blocks s1 ∧
          s1.static_table = s.static_table) ∧
      (init_net ∈ live → mptcp_net_exit s init_net = .error .free_of_static) :=
  ⟨rfl, rfl, retire_frees_only_live_private_copy _ rfl⟩

/-- A write through the entry of a published namespace lands in that namespace's
flag. -/
theorem write_published (s : State) (N : NetId) (hP : Published s N) (v : Int) :
    entry_data s N = some (.mptcp_enabled_of (mptcp_get_pernet N)) ∧
    sysctl_write s N MPTCP_SYSCTL_PATH "enabled" v =
      some { s with pernet := Function.update s.pernet (mptcp_get_pernet N)
                      { s.pernet (mptcp_get_pernet N) with mptcp_enabled := v } } := by
  obtain ⟨H, e, rest, hL, _, _, ht, hname, hhand, hd, _⟩ := hP
  constructor
  · simp only [entry_data, hL, ht, hd]
  · simp only [sysctl_write, hL, ht, List.find?_cons, hname, beq_self_eq_true, hhand,
      proc_dointvec_write, hd]

/-- Creation-only sequences satisfy the destruction precondition. -/
theorem admissible_creates (es : List Event) :
    ∀ (s : State) (live : List NetId), (∀ e ∈ es, ∃ n a r, e = Event.create n a r) →
    admissible s live es = true := by
  induction es with
  | nil => intro s live _; rfl
  | cons e es ih =>
    intro s live hes
    obtain ⟨n, a, r, he⟩ := hes e (List.mem_cons_self _ _)
    subst he
    obtain ⟨ret, s2, hinit, _⟩ := net_init_total s n a r
    simp only [admissible, netns_step, hinit, Bool.true_and]
    exact ih _ _ (fun x hx => hes x (List.mem_cons_of_mem _ hx))

/-- Along a creation-only sequence every registered header belongs to a live
namespace. -/
theorem registered_live_creates (es : List Event) :
    ∀ (s : State) (live : List NetId) (s1 : State) (live1 : List NetId),
    (∀ e ∈ es, ∃ n a r, e = Event.create n a r) →
    (∀ H ∈ s.sysctl, H.net ∈ live) →
    netns_run s live es = .ok (s1, live1) →
    ∀ H ∈ s1.sysctl, H.net ∈ live1 := by
  induction es with
  | nil =>
    intro s live s1 live1 _ hreg hrun
    simp only [netns_run] at hrun
    injection hrun with hrun; injection hrun with hs hl; subst hs; subst hl
    exact hreg
  | cons e es ih =>
    intro s live s1 live1 hes hreg hrun
    obtain ⟨n, a, r, he⟩ := hes e (List.mem_cons_self _ _)
    subst he
    obtain ⟨ret, s2, hinit, _⟩ := net_init_total s n a r
    simp only [netns_run, netns_step, hinit] at hrun
    refine ih s2 _ s1 live1 (fun x hx => hes x (List.mem_cons_of_mem _ hx)) ?_ hrun
    by_cases hret : ret = 0
    · subst hret
      obtain ⟨_, _, _, tbl, hsys, _⟩ := net_init_zero_fields _ _ _ _ _ hinit
      intro H hH
      rw [hsys] at hH
      simp only [if_true]
      rcases List.mem_cons.mp hH with hH | hH
      · subst hH; exact List.mem_cons_self _ _
      · exact List.mem_cons_of_mem _ (hreg H hH)
    · obtain ⟨_, _, _, hsys, _⟩ := net_init_nonzero_fields _ _ _ _ _ _ hinit hret
      intro H hH
      rw [hsys] at hH
      simp only [hret, if_false]
      exact hreg H hH

/-- C2: in every memory reached from boot by the creation hook for init_net followed
by creation hooks for any secondary namespaces (each succeeding or failing), a
namespace has a registered control entry exactly when its creation succeeded, the data
slot of the entry registered for each such namespace N points at N's own mptcp_enabled
field, and a write of any value v through N's entry completes, makes
mptcp_is_enabled(N) return v and leaves mptcp_is_enabled(M) unchanged for every other
namespace M. -/
theorem control_entry_bound_to_own_flag (a r : Bool) (es : List Event)
    (hes : ∀ e ∈ es, ∃ n a r, e = Event.create n a r ∧ n ≠ init_net) :
    ∃ s live, netns_run boot [] (Event.create init_net a r :: es) = .ok (s, live) ∧
      (∀ N, entry_registered s N = true ↔ N ∈ live) ∧
      ∀ N ∈ live,
        entry_data s N = some (.mptcp_enabled_of (mptcp_get_pernet N)) ∧
        ∀ v, ∃ s1, sysctl_write s N MPTCP_SYSCTL_PATH "enabled" v = some s1 ∧
          mptcp_is_enabled s1 N = v ∧
          ∀ M, M ≠ N → mptcp_is_enabled s1 M = mptcp_is_enabled s M := by
  have hall : ∀ e ∈ Event.create init_net a r :: es, ∃ n a r, e = Event.create n a r := by
    intro e he
    rcases List.mem_cons.mp he with he | he
    · exact ⟨_, _, _, he⟩
    · obtain ⟨n, a, r, h, _⟩ := hes e he; exact ⟨n, a, r, h⟩
  obtain ⟨s, live, hrun, hinv⟩ :=
    inv_run _ boot [] inv_boot (admissible_creates _ boot [] hall)
  have hreg := registered_live_creates _ boot [] s live hall (by simp [boot]) hrun
  refine ⟨s, live, hrun, ?_, ?_⟩
  · intro N
    constructor
    · intro h
      simp only [entry_registered, Option.isSome_iff_exists] at h
      obtain ⟨H, hH⟩ := h
      obtain ⟨hmem, hnet, _⟩ := sysctl_lookup_net s N H hH
      rw [← hnet]; exact hreg H hmem
    · intro h
      obtain ⟨H, _, _, hL, _⟩ := hinv.2.2 N h
      simp [entry_registered, hL]
  · intro N hN
    have hP := hinv.2.2 N hN
    refine ⟨(write_published s N hP 0).1, ?_⟩
    intro v
    refine ⟨_, (write_published s N hP v).2, ?_, ?_⟩
    · simp [mptcp_is_enabled]
    · intro M hM
      simp [mptcp_is_enabled, mptcp_get_pernet, Function.update_noteq hM]

theorem control_entry_bound_to_own_flag_witness :
    (∀ e ∈ [Event.create 1 true true, Event.create 2 true false, Event.create 3 true true],
      ∃ n a r, e = Event.create n a r ∧ n ≠ init_net) ∧
    (netns_run boot [] (Event.create init_net true true ::
      [Event.create 1 true true, Event.create 2 true false,
       Event.create 3 true true])).toOption.map Prod.snd = some [3, 1, init_net] ∧
    ∃ s live, netns_run boot [] (Event.create init_net true true ::
        [Event.create 1 true true, Event.create 2 true false, Event.create 3 true true]) =
          .ok (s, live) ∧
      (∀ N, entry_registered s N = true ↔ N ∈ live) ∧
      ∀ N ∈ live,
        entry_data s N = some (.mptcp_enabled_of (mptcp_get_pernet N)) ∧
        ∀ v, ∃ s1, sysctl_write s N MPTCP_SYSCTL_PATH "enabled" v = some s1 ∧
          mptcp_is_enabled s1 N = v ∧
          ∀ M, M ≠ N → mptcp_is_enabled s1 M = mptcp_is_enabled s M :=
  have h : ∀ e ∈ [Event.create 1 true true, Event.create 2 true false,
      Event.create 3 true true], ∃ n a r, e = Event.create n a r ∧ n ≠ init_net := by
    intro e he
    simp only [List.mem_cons, List.mem_singleton, List.not_mem_nil, or_false] at he
    rcases he with he | he | he <;> subst he
    · exact ⟨1, true, true, rfl, by decide⟩
    · exact ⟨2, true, false, rfl, by decide⟩
    · exact ⟨3, true, true, rfl, by decide⟩
  ⟨h, rfl, control_entry_bound_to_own_flag true true _ h⟩

/-! ## Theorems: the handle of one instance -/

theorem inst_run_handle (n : NetId) (ops : List InstOp) :
    ∀ (s s1 : State) (flag : Prop),
    ((s.pernet (mptcp_get_pernet n)).ctl_table_hdr ≠ none ↔
      (entry_registered s n = true ∨ flag)) →
    inst_run s n ops = .ok s1 →
    ((s1.pernet (mptcp_get_pernet n)).ctl_table_hdr ≠ none ↔
      (entry_registered s1 n = true ∨ flag ∨ InstOp.retire ∈ ops)) := by
  induction ops with
  | nil =>
    intro s s1 flag h hrun
    simp only [inst_run] at hrun
    injection hrun with hrun; subst hrun
    simpa using h
  | cons o os ih =>
    intro s s1 flag h hrun
    cases o with
    | apply_defaults =>
      simp only [inst_run, inst_step] at hrun
      have h2 : ((mptcp_pernet_set_defaults s (mptcp_get_pernet n)).pernet
          (mptcp_get_pernet n)).ctl_table_hdr ≠ none ↔
          (entry_registered (mptcp_pernet_set_defaults s (mptcp_get_pernet n)) n = true ∨
            flag) := by
        simpa [mptcp_pernet_set_defaults, entry_registered, sysctl_lookup] using h
      have := ih _ s1 flag h2 hrun
      simpa using this
    | publish a r =>
      obtain ⟨e, s2, hnt, _⟩ := new_table_total s n (mptcp_get_pernet n) a r
      simp only [inst_run, inst_step, hnt] at hrun
      have h2 : (s2.pernet (mptcp_get_pernet n)).ctl_table_hdr ≠ none ↔
          (entry_registered s2 n = true ∨ flag) := by
        by_cases he : e = 0
        · subst he
          obtain ⟨_, hp, tbl, hsys, _⟩ := new_table_zero_fields _ _ _ _ _ _ hnt
          have h3 : (s2.pernet (mptcp_get_pernet n)).ctl_table_hdr ≠ none := by
            rw [hp]; simp
          have h4 : entry_registered s2 n = true := by
            simp [entry_registered, sysctl_lookup, hsys]
          exact ⟨fun _ => Or.inl h4, fun _ => h3⟩
        · obtain ⟨_, hp, hsys, _⟩ := new_table_nonzero_fields _ _ _ _ _ _ _ hnt he
          simpa [entry_registered, sysctl_lookup, hp, hsys] using h
      have := ih _ s1 flag h2 hrun
      simpa using this
    | retire =>
      cases hdel : mptcp_pernet_del_table s (mptcp_get_pernet n) with
      | error f => simp [inst_run, inst_step, hdel] at hrun
      | ok s2 =>
        simp only [inst_run, inst_step, hdel] at hrun
        obtain ⟨hdr, _, hh, _, _, hp, _⟩ := del_table_ok_fields _ _ _ hdel
        have h2 : (s2.pernet (mptcp_get_pernet n)).ctl_table_hdr ≠ none ↔
            (entry_registered s2 n = true ∨ True) := by
          rw [hp, hh]; simp
        have := ih _ s1 True h2 hrun
        simpa using this

/-- Counterexample to C5 as stated: from boot, a successful publish followed by retire
on the instance of namespace 1 completes and leaves ctl_table_hdr non-null (the address
of the unregistered header) while no entry is registered for the namespace. -/
theorem handle_stale_after_retire :
    ∃ s, inst_run boot 1 [.publish true true, .retire] = .ok s ∧
      (s.pernet (mptcp_get_pernet 1)).ctl_table_hdr = some 1 ∧
      entry_registered s 1 = false ∧ s.sysctl = [] :=
  ⟨_, rfl, rfl, rfl, rfl⟩

/-- C5 amended: in every memory reached from a fresh instance (ctl_table_hdr null,
nothing registered for the namespace) by a sequence of apply_defaults, publish
(succeeding or failing) and retire that does not fault, the instance's ctl_table_hdr is
non-null exactly when an entry is registered for the namespace or a retire has run:
without a retire the handle is non-null if and only if the entry is registered; retire
unregisters the entry and leaves the handle as it was. -/
theorem handle_nonnull_iff_registered_or_retired (s0 : State) (n : NetId)
    (ops : List InstOp) (s : State)
    (hnull : (s0.pernet (mptcp_get_pernet n)).ctl_table_hdr = none)
    (hunreg : entry_registered s0 n = false)
    (hrun : inst_run s0 n ops = .ok s) :
    ((s.pernet (mptcp_get_pernet n)).ctl_table_hdr ≠ none ↔
      (entry_registered s n = true ∨ InstOp.retire ∈ ops)) ∧
    (InstOp.retire ∉ ops →
      ((s.pernet (mptcp_get_pernet n)).ctl_table_hdr ≠ none ↔
        entry_registered s n = true)) := by
  have h := inst_run_handle n ops s0 s False (by simp [hnull, hunreg]) hrun
  simp only [false_or] at h
  refine ⟨h, fun hnr => ?_⟩
  rw [h]; simp [hnr]

theorem handle_nonnull_iff_registered_or_retired_witness :
    ∃ s, inst_run boot 2
        [.apply_defaults, .publish true false, .publish true true, .retire,
         .publish false true] = .ok s ∧
      (((s.pernet (mptcp_get_pernet 2)).ctl_table_hdr ≠ none ↔
        (entry_registered s 2 = true ∨
          InstOp.retire ∈ [InstOp.apply_defaults, .publish true false, .publish true true,
            .retire, .publish false true])) ∧
       (InstOp.retire ∉ [InstOp.apply_defaults, .publish true false, .publish true true,
            .retire, .publish false true] →
        ((s.pernet (mptcp_get_pernet 2)).ctl_table_hdr ≠ none ↔
          entry_registered s 2 = true))) :=
  ⟨_, rfl, handle_nonnull_iff_registered_or_retired boot 2 _ _ rfl rfl rfl⟩

end Mptcp

